import Mathlib

/-!
Verification of the natural-language specification of the
genai-insightpilot-explorer repository against a shallow embedding of its
Python sources.

Each Lean definition in this file is translated from a concrete function of
the repository (file and line references are given in the doc comments).
Python dictionaries are modelled as association lists with insertion-order
semantics: assigning to an existing key updates the value in place, and a
new key is appended at the end, exactly as CPython dicts behave.  Python
strings are modelled as Lean strings (claims only exercise ASCII data, so
ASCII case folding and ASCII whitespace model the Python behaviour of the
inputs that appear in the claims).
-/

namespace InsightPilot

/-- One assignment step of a CPython dict, d[k] = v: if the key is present
its value is updated in place (keeping its position), otherwise the new
binding is appended at the end. -/
def dictInsert {α : Type} (d : List (String × α)) (k : String) (v : α) :
    List (String × α) :=
  if d.any (fun kv => kv.1 = k) then
    d.map (fun kv => if kv.1 = k then (kv.1, v) else kv)
  else d ++ [(k, v)]

/-- CPython dict lookup d.get(k): the value of the (unique) binding of the
key, scanning bindings in insertion order. -/
def dictGet? {α : Type} (d : List (String × α)) (k : String) : Option α :=
  (d.find? (fun kv => kv.1 = k)).map (fun kv => kv.2)

/-- The value attached to the last binding of a key in a raw pair list, or
none if the key never occurs. -/
def lastBinding {α : Type} (ps : List (String × α)) (k : String) : Option α :=
  (ps.reverse.find? (fun kv => kv.1 = k)).map (fun kv => kv.2)

theorem find?_update_map_ne {α : Type} (d : List (String × α)) (k q : String)
    (v : α) (hq : q ≠ k) :
    (d.map (fun kv => if kv.1 = k then (kv.1, v) else kv)).find?
        (fun kv => kv.1 = q) =
      d.find? (fun kv => kv.1 = q) := by
  induction d with
  | nil => rfl
  | cons a d ih =>
      by_cases hak : a.1 = k
      · have haq : ¬(a.1 = q) := fun h => hq (h ▸ hak)
        simp only [List.map_cons, if_pos hak, List.find?]
        simp [haq, ih]
      · simp only [List.map_cons, if_neg hak, List.find?]
        by_cases haq : a.1 = q
        · simp [haq]
        · simp [haq, ih]

theorem find?_update_map_self {α : Type} (d : List (String × α)) (k : String)
    (v : α) :
    ((d.map (fun kv => if kv.1 = k then (kv.1, v) else kv)).find?
        (fun kv => kv.1 = k)).map (fun kv => kv.2) =
      if d.any (fun kv => kv.1 = k) then some v else none := by
  induction d with
  | nil => rfl
  | cons a d ih =>
      by_cases hak : a.1 = k
      · rw [List.map_cons, if_pos hak,
          List.find?_cons_of_pos _ (by simp [hak])]
        simp [List.any_cons, hak]
      · rw [List.map_cons, if_neg hak,
          List.find?_cons_of_neg _ (by simp [hak])]
        rw [List.any_cons, decide_eq_false hak, Bool.false_or]
        exact ih

theorem dictGet?_dictInsert {α : Type} (d : List (String × α)) (k q : String)
    (v : α) :
    dictGet? (dictInsert d k v) q = if q = k then some v else dictGet? d q := by
  unfold dictInsert dictGet?
  by_cases h : d.any (fun kv => kv.1 = k) = true
  · rw [if_pos h]
    by_cases hq : q = k
    · subst hq
      rw [if_pos rfl, find?_update_map_self]
      rw [if_pos h]
    · rw [if_neg hq, find?_update_map_ne d k q v hq]
  · rw [if_neg h, List.find?_append]
    by_cases hq : q = k
    · subst hq
      have hnone : d.find? (fun kv => kv.1 = q) = none := by
        rw [List.find?_eq_none]
        intro kv hkv hcontra
        exact h (List.any_eq_true.mpr ⟨kv, hkv, hcontra⟩)
      simp [hnone, List.find?]
    · have hne : ¬(k = q) := fun hh => hq (Eq.symm hh)
      rcases hfound : d.find? (fun kv => kv.1 = q) with _ | ⟨a⟩ <;>
        simp [hfound, List.find?, hne, hq]

/-! ## records_from_table (src/src/ui/helpers.py lines 56-66)

The Python loop is

    for row in rows:
        record = \x7b\x7d
        row_list = list(row)
        for idx, column in enumerate(column_list):
            record[column] = row_list[idx] if idx < len(row_list) else None
        records.append(record)

The inner loop is embedded as a recursion over the column list carrying the
running index and the partially-built dict. -/

/-- Inner loop of records_from_table: walk the column list with its index,
assigning record[column] = row[idx] if idx < len(row) else None. -/
def record_of_row_aux (row : List String) :
    List String → Nat → List (String × Option String) →
      List (String × Option String)
  | [], _, record => record
  | c :: cs, idx, record =>
      record_of_row_aux row cs (idx + 1) (dictInsert record c row[idx]?)

/-- One record of records_from_table: the dict built from one row. -/
def record_of_row (columns row : List String) :
    List (String × Option String) :=
  record_of_row_aux row columns 0 []

/-- records_from_table of src/src/ui/helpers.py: one record per row. -/
def records_from_table (columns : List String) (rows : List (List String)) :
    List (List (String × Option String)) :=
  rows.map (fun row => record_of_row columns row)

theorem record_of_row_aux_not_mem (row : List String) (cs : List String)
    (idx : Nat) (record : List (String × Option String)) (k : String)
    (hk : k ∉ cs) :
    dictGet? (record_of_row_aux row cs idx record) k = dictGet? record k := by
  induction cs generalizing idx record with
  | nil => rfl
  | cons c cs ih =>
      have hkc : k ≠ c := fun h => hk (h ▸ List.mem_cons_self c cs)
      have hkcs : k ∉ cs := fun h => hk (List.mem_cons_of_mem c h)
      rw [record_of_row_aux, ih _ _ hkcs, dictGet?_dictInsert, if_neg hkc]

theorem record_of_row_aux_get (row : List String) (cs : List String)
    (idx : Nat) (record : List (String × Option String))
    (hnd : cs.Nodup) (i : Nat) (hi : i < cs.length) :
    dictGet? (record_of_row_aux row cs idx record) (cs.get ⟨i, hi⟩) =
      some row[idx + i]? := by
  induction cs generalizing idx record i with
  | nil => exact absurd hi (Nat.not_lt_zero i)
  | cons c cs ih =>
      rcases List.nodup_cons.mp hnd with ⟨hc, hnd'⟩
      cases i with
      | zero =>
          rw [record_of_row_aux]
          have h := record_of_row_aux_not_mem row cs (idx + 1)
            (dictInsert record c row[idx]?) c hc
          simp only [List.get]
          rw [h, dictGet?_dictInsert, if_pos rfl, Nat.add_zero]
      | succ j =>
          rw [record_of_row_aux]
          have hj : j < cs.length := Nat.lt_of_succ_lt_succ hi
          have h := ih (idx + 1) (dictInsert record c row[idx]?) hnd' j hj
          simp only [List.get] at h ⊢
          rw [h]
          congr 2
          omega

/-! ## get_athena_table_schema (src/src/services/athena.py lines 60-80)

    cols = \x7b\x7d
    for c in res.Table.StorageDescriptor.Columns: cols[c.Name] = c.Type
    for c in res.Table.PartitionKeys:             cols[c.Name] = c.Type
    return cols

The Glue response is abstracted to the two (name, type) column lists that the
loops read; everything before them is remote I/O. -/

/-- Dict-building loop shared by both column scans of get_athena_table_schema. -/
def schemaLoop (d : List (String × String)) (cols : List (String × String)) :
    List (String × String) :=
  cols.foldl (fun d kv => dictInsert d kv.1 kv.2) d

/-- get_athena_table_schema of src/src/services/athena.py: insert the
storage-descriptor columns first, then the partition-key columns, into one
dict. -/
def get_athena_table_schema (storageColumns partitionKeys :
    List (String × String)) : List (String × String) :=
  schemaLoop (schemaLoop [] storageColumns) partitionKeys

theorem lastBinding_cons {α : Type} (kv : String × α) (ps : List (String × α))
    (k : String) :
    lastBinding (kv :: ps) k =
      match lastBinding ps k with
      | some v => some v
      | none => if kv.1 = k then some kv.2 else none := by
  unfold lastBinding
  rw [List.reverse_cons, List.find?_append]
  rcases h : ps.reverse.find? (fun kv => kv.1 = k) with _ | ⟨a⟩
  · by_cases hk : kv.1 = k <;> simp [h, List.find?, hk]
  · simp [h]

theorem schemaLoop_get (cols : List (String × String))
    (d : List (String × String)) (k : String) :
    dictGet? (schemaLoop d cols) k =
      match lastBinding cols k with
      | some v => some v
      | none => dictGet? d k := by
  induction cols generalizing d with
  | nil => simp [schemaLoop, lastBinding]
  | cons kv cols ih =>
      have hstep : schemaLoop d (kv :: cols) =
          schemaLoop (dictInsert d kv.1 kv.2) cols := rfl
      rw [hstep, ih, lastBinding_cons, dictGet?_dictInsert]
      rcases lastBinding cols k with _ | ⟨v⟩
      · by_cases hk : kv.1 = k
        · simp [hk]
        · have hnk : ¬(k = kv.1) := fun hh => hk (Eq.symm hh)
          simp [hk, hnk]
      · simp

/-- C8: for every table, get_table_schema returns the merge in which
storage-descriptor columns are inserted first and partition-key columns
second, so a partition key sharing a name with a storage column overwrites
the type coming from the storage column; within each list, later duplicates overwrite
earlier ones. -/
theorem C8_schema_merge (storageColumns partitionKeys :
    List (String × String)) (k : String) :
    dictGet? (get_athena_table_schema storageColumns partitionKeys) k =
      match lastBinding partitionKeys k with
      | some v => some v
      | none => lastBinding storageColumns k := by
  unfold get_athena_table_schema
  rw [schemaLoop_get, schemaLoop_get]
  rcases lastBinding partitionKeys k with _ | ⟨v⟩
  · rcases h : lastBinding storageColumns k with _ | ⟨w⟩ <;>
      simp [dictGet?]
  · simp

/-- C10 (counterexample): with duplicate column names the claim fails: the
record maps the duplicated name to the cell at the last index bearing that
name, so the column at index 0 named a is not mapped to the cell at index 0. -/
theorem C10_counterexample :
    records_from_table ["a", "a"] [["1", "2"]] = [[("a", some "2")]] ∧
      dictGet? (record_of_row ["a", "a"] ["1", "2"]) "a" ≠ some (some "1") := by
  exact ⟨rfl, by decide⟩

/-- C10 (amended): for every column list with pairwise-distinct names and
every row list, records_from_table returns one record per input row in
order; each record maps the column at index i to the cell at index i, with
missing trailing cells becoming None, extra cells silently dropped, and no
key beyond the column names present.  (With duplicate column names the last
occurrence of a name wins, see the counterexample.) -/
theorem C10_records (columns : List String) (rows : List (List String))
    (row : List String) (h : columns.Nodup) :
    (records_from_table columns rows).length = rows.length ∧
    (∀ (j : Nat) (hj : j < rows.length),
      (records_from_table columns rows)[j]? =
        some (record_of_row columns (rows.get ⟨j, hj⟩))) ∧
    (∀ (i : Nat) (hi : i < columns.length),
      dictGet? (record_of_row columns row) (columns.get ⟨i, hi⟩) =
        some row[i]?) ∧
    (∀ k, k ∉ columns → dictGet? (record_of_row columns row) k = none) := by
  refine ⟨by simp [records_from_table], ?_, ?_, ?_⟩
  · intro j hj
    rw [records_from_table, List.getElem?_map,
      List.getElem?_eq_getElem hj]
    rfl
  · intro i hi
    have := record_of_row_aux_get row columns 0 [] h i hi
    simpa using this
  · intro k hk
    exact record_of_row_aux_not_mem row columns 0 [] k hk

/-- C10 witness: concrete instance of the amended claim, with a row shorter
than the column list so the trailing column is padded with None. -/
theorem C10_records_witness :
    dictGet? (record_of_row ["region", "sales"] ["West"]) "sales" =
      some none := by
  have h := C10_records ["region", "sales"] [["West"]] ["West"] (by decide)
  exact h.2.2.1 1 (by decide)

/-! ## run_athena_query result collection (src/src/services/athena.py
lines 121-143)

    cols, rows, count, first_page = [], [], 0, True
    for page in paginator.paginate(QueryExecutionId=qid):
        rs_cols = page.ResultSet.ResultSetMetadata.ColumnInfo
        if first_page: cols = [c.Name for c in rs_cols]; first_page = False
        for row in page.ResultSet.Rows:
            data = [c.VarCharValue or "" for c in row.Data]
            if data == cols: continue
            rows.append(data); count += 1
            if count >= max_rows: break
        if count >= max_rows: break
    return dict-of columns, rows, query_execution_id

A page is abstracted to its column metadata (the list of column names) and
its list of rows (each row the list of cell strings the code extracts).
max_rows is a Python int, so it is modelled as an Int (callers pass 100 or
500 but the parameter itself is unbounded). -/

/-- One page of Athena get_query_results output, reduced to the two fields
run_athena_query reads. -/
structure QueryPage where
  columnInfo : List String
  rows : List (List String)

/-- Inner row loop of run_athena_query: skip any row equal to the column
list, append the rest, stop once the running count reaches max_rows.
Returns the appended rows and the updated count. -/
def rowLoop (cols : List String) (maxRows : Int) :
    List (List String) → Int → List (List String) × Int
  | [], count => ([], count)
  | data :: rest, count =>
      if data = cols then rowLoop cols maxRows rest count
      else if maxRows ≤ count + 1 then ([data], count + 1)
      else
        let r := rowLoop cols maxRows rest (count + 1)
        (data :: r.1, r.2)

/-- Outer page loop of run_athena_query: run the row loop on each page and
stop when the count has reached max_rows. -/
def pageLoop (cols : List String) (maxRows : Int) :
    List (List (List String)) → Int → List (List String)
  | [], _ => []
  | page :: rest, count =>
      let r := rowLoop cols maxRows page count
      if maxRows ≤ r.2 then r.1
      else r.1 ++ pageLoop cols maxRows rest r.2

/-- Column names of the result: taken from the first page (first_page flag),
empty when there are no pages. -/
def resultColumns : List QueryPage → List String
  | [] => []
  | p :: _ => p.columnInfo

/-- The rows list returned by run_athena_query on a successful query, as a
function of the pages the paginator yields. -/
def collect_query_rows (pages : List QueryPage) (maxRows : Int) :
    List (List String) :=
  pageLoop (resultColumns pages) maxRows (pages.map (fun p => p.rows)) 0

theorem rowLoop_spec (cols : List String) (maxRows : Int)
    (page : List (List String)) (count : Int) (h : count < maxRows) :
    rowLoop cols maxRows page count =
      ((page.filter (fun r => r ≠ cols)).take (maxRows - count).toNat,
        count +
          ((page.filter (fun r => r ≠ cols)).take
            (maxRows - count).toNat).length) := by
  induction page generalizing count with
  | nil => simp [rowLoop]
  | cons data rest ih =>
      by_cases hdc : data = cols
      · rw [show rowLoop cols maxRows (data :: rest) count =
            (if data = cols then rowLoop cols maxRows rest count
             else if maxRows ≤ count + 1 then ([data], count + 1)
             else
               let r := rowLoop cols maxRows rest (count + 1)
               (data :: r.1, r.2)) from rfl,
          if_pos hdc, ih count h]
        simp [List.filter_cons, hdc]
      · have hfilter : (data :: rest).filter (fun r => r ≠ cols) =
            data :: rest.filter (fun r => r ≠ cols) := by
          simp [List.filter_cons, hdc]
        rw [show rowLoop cols maxRows (data :: rest) count =
            (if data = cols then rowLoop cols maxRows rest count
             else if maxRows ≤ count + 1 then ([data], count + 1)
             else
               let r := rowLoop cols maxRows rest (count + 1)
               (data :: r.1, r.2)) from rfl,
          if_neg hdc]
        by_cases hstop : maxRows ≤ count + 1
        · have hk : (maxRows - count).toNat = 1 := by omega
          rw [if_pos hstop, hfilter, hk]
          simp
        · have hlt : count + 1 < maxRows := by omega
          have hk : (maxRows - count).toNat =
              (maxRows - (count + 1)).toNat + 1 := by omega
          rw [if_neg hstop]
          simp only [ih (count + 1) hlt, hfilter, hk, List.take_succ_cons]
          rw [Prod.mk.injEq]
          refine ⟨rfl, ?_⟩
          rw [List.length_cons]
          push_cast
          ring

theorem pageLoop_spec (cols : List String) (maxRows : Int)
    (pages : List (List (List String))) (count : Int) (h : count < maxRows) :
    pageLoop cols maxRows pages count =
      (pages.flatten.filter (fun r => r ≠ cols)).take
        (maxRows - count).toNat := by
  induction pages generalizing count with
  | nil => simp [pageLoop]
  | cons page rest ih =>
      rw [show pageLoop cols maxRows (page :: rest) count =
          (let r := rowLoop cols maxRows page count
           if maxRows ≤ r.2 then r.1
           else r.1 ++ pageLoop cols maxRows rest r.2) from rfl]
      simp only [rowLoop_spec cols maxRows page count h]
      set F := page.filter (fun r => r ≠ cols) with hF
      set k := (maxRows - count).toNat with hk
      have h1 : (F.take k).length = min k F.length := List.length_take k F
      have hck : count + (k : Int) = maxRows := by omega
      have hjoin : ((page :: rest).flatten.filter (fun r => r ≠ cols)) =
          F ++ rest.flatten.filter (fun r => r ≠ cols) := by
        simp [List.flatten, List.filter_append, hF]
      by_cases hstop : maxRows ≤ count + ((F.take k).length : Int)
      · have hkF : k ≤ F.length := by omega
        rw [if_pos hstop, hjoin, List.take_append_eq_append_take]
        have hz : k - F.length = 0 := by omega
        rw [hz, List.take_zero, List.append_nil]
      · have hFk : F.length < k := by omega
        have htake : F.take k = F := List.take_of_length_le (by omega)
        rw [if_neg hstop, hjoin, List.take_append_eq_append_take]
        rw [ih (count + ((F.take k).length : Int)) (by omega)]
        rw [htake]
        have hrest : (maxRows - (count + (F.length : Int))).toNat =
            k - F.length := by omega
        rw [hrest]

/-- C2 (counterexample): the claim fails in two ways.  First, the code drops
every collected row equal to the column-name list, not only the header duplicate of the first page: with columns [a] and rows [a], [a], [b] (a header and a
data row whose single cell happens to equal the column name) both [a] rows
are dropped, where the claim predicts [[a], [b]].  Second, with max_rows = 0
the check count >= max_rows runs only after a row was already appended, so
one row is returned and the bound is exceeded. -/
theorem C2_counterexample :
    (collect_query_rows [⟨["a"], [["a"], ["a"], ["b"]]⟩] 10 = [["b"]] ∧
      collect_query_rows [⟨["a"], [["a"], ["a"], ["b"]]⟩] 10 ≠
        [["a"], ["b"]]) ∧
    (collect_query_rows [⟨["a"], [["a"], ["x"], ["y"]]⟩] 0 = [["x"]] ∧
      ¬(collect_query_rows [⟨["a"], [["a"], ["x"], ["y"]]⟩] 0).length ≤ 0) := by
  refine ⟨⟨rfl, by decide⟩, ⟨rfl, by decide⟩⟩

/-- C2 (amended): for every successful query execution with max_rows at
least 1, run_query returns, in order, the first max_rows collected rows that
are not equal to the column-name list (so the header duplicate on the first page
is stripped, and so is any later row equal to the column names), and the
returned row list never exceeds max_rows rows. -/
theorem C2_rows (pages : List QueryPage) (maxRows : Int) (h : 1 ≤ maxRows) :
    collect_query_rows pages maxRows =
      ((pages.map (fun p => p.rows)).flatten.filter
        (fun r => r ≠ resultColumns pages)).take maxRows.toNat ∧
    (collect_query_rows pages maxRows).length ≤ maxRows.toNat := by
  have h0 : (0 : Int) < maxRows := by omega
  have hmain := pageLoop_spec (resultColumns pages) maxRows
    (pages.map (fun p => p.rows)) 0 h0
  constructor
  · rw [collect_query_rows, hmain]
    norm_num
  · rw [collect_query_rows, hmain]
    have := List.length_take (maxRows - 0).toNat
      (((pages.map (fun p => p.rows)).flatten).filter
        (fun r => r ≠ resultColumns pages))
    omega

/-- C2 witness: a concrete run with max_rows = 1 truncating a three-row page
to a single row after stripping the header. -/
theorem C2_rows_witness :
    collect_query_rows [⟨["c"], [["c"], ["v1"], ["v2"]]⟩] 1 = [["v1"]] := by
  have h := C2_rows [⟨["c"], [["c"], ["v1"], ["v2"]]⟩] 1 (by decide)
  rw [h.1]
  rfl

/-! ## Settings (src/src/settings.py)

load_athena_settings reads five environment variables with Python
or-defaulting (an unset variable or an empty string falls through), builds
an AthenaSettings record, and syncs it back into the process environment via
AthenaSettings.apply / set_env_var; a None value pops the variable.  The
process environment is modelled as a function from variable names to
optional values (an absent variable is none, which also models os.environ.pop). -/

/-- Python expression v or d for an optional string v: a falsy value
(absent variable or empty string) falls through to the default. -/
def pyOr (v : Option String) (d : String) : String :=
  match v with
  | none => d
  | some s => if s = "" then d else s

/-- Python expression v or None for an optional string v. -/
def pyOrOpt (v : Option String) : Option String :=
  match v with
  | none => none
  | some s => if s = "" then none else some s

/-- Python expression v or w or d (used for the region chain). -/
def pyOr2 (v w : Option String) (d : String) : String :=
  match pyOrOpt v with
  | some s => s
  | none => pyOr w d

/-- AthenaSettings dataclass of src/src/settings.py. -/
structure AthenaSettings where
  region : String
  database : String
  workgroup : Option String
  catalog : String
  output : Option String

/-- set_env_var of src/src/settings.py: value None pops the variable,
otherwise it is stored. -/
def set_env_var (env : String → Option String) (name : String)
    (value : Option String) : String → Option String :=
  fun k => if k = name then value else env k

/-- AthenaSettings.apply of src/src/settings.py: sync the six environment
variables, in source order. -/
def AthenaSettings.apply (s : AthenaSettings)
    (env : String → Option String) : String → Option String :=
  set_env_var
    (set_env_var
      (set_env_var
        (set_env_var
          (set_env_var
            (set_env_var env "AWS_REGION" (some s.region))
            "AWS_DEFAULT_REGION" (some s.region))
          "ATHENA_DATABASE" (some s.database))
        "ATHENA_WORKGROUP" s.workgroup)
      "ATHENA_CATALOG" (some s.catalog))
    "ATHENA_OUTPUT" s.output

/-- load_athena_settings of src/src/settings.py: read the settings with
defaults, apply them back to the environment, return both. -/
def load_athena_settings (env : String → Option String) :
    AthenaSettings × (String → Option String) :=
  let settings : AthenaSettings :=
    { region := pyOr2 (env "AWS_REGION") (env "AWS_DEFAULT_REGION")
        "us-east-1"
      database := pyOr (env "ATHENA_DATABASE") "super_store_data"
      workgroup := pyOrOpt (env "ATHENA_WORKGROUP")
      catalog := pyOr (env "ATHENA_CATALOG") "AwsDataCatalog"
      output := pyOrOpt (env "ATHENA_OUTPUT") }
  (settings, settings.apply env)

/-- Missing-database guard of the orchestrator, src/src/app.py lines 35-37:
Python truthiness of a string is emptiness. -/
def missing_database_guard (s : AthenaSettings) : Bool :=
  s.database = ""

theorem pyOr_ne_empty (v : Option String) (d : String) (hd : d ≠ "") :
    pyOr v d ≠ "" := by
  rcases v with _ | ⟨s⟩
  · exact hd
  · by_cases hs : s = "" <;> simp [pyOr, hs, hd]

theorem pyOr2_ne_empty (v w : Option String) (d : String) (hd : d ≠ "") :
    pyOr2 v w d ≠ "" := by
  rcases v with _ | ⟨s⟩
  · exact pyOr_ne_empty w d hd
  · by_cases hs : s = ""
    · simpa [pyOr2, pyOrOpt, hs] using pyOr_ne_empty w d hd
    · simp [pyOr2, pyOrOpt, hs]

theorem pyOr_falsy (v : Option String) (d : String)
    (hv : v = none ∨ v = some "") : pyOr v d = d := by
  rcases hv with h | h <;> simp [pyOr, h]

/-- C9: load_athena_settings always yields non-empty region, database and
catalog (falling back to us-east-1, super_store_data and AwsDataCatalog when
the variables are unset or empty); afterwards the environment holds exactly
the returned fields (optional fields are removed when None); hence the
missing-database guard of the orchestrator can never fire after loading. -/
theorem C9_settings (env : String → Option String) :
    ((load_athena_settings env).1.region ≠ "" ∧
     (load_athena_settings env).1.database ≠ "" ∧
     (load_athena_settings env).1.catalog ≠ "") ∧
    ((env "AWS_REGION" = none ∨ env "AWS_REGION" = some "") →
     (env "AWS_DEFAULT_REGION" = none ∨ env "AWS_DEFAULT_REGION" = some "") →
      (load_athena_settings env).1.region = "us-east-1") ∧
    ((env "ATHENA_DATABASE" = none ∨ env "ATHENA_DATABASE" = some "") →
      (load_athena_settings env).1.database = "super_store_data") ∧
    ((env "ATHENA_CATALOG" = none ∨ env "ATHENA_CATALOG" = some "") →
      (load_athena_settings env).1.catalog = "AwsDataCatalog") ∧
    ((load_athena_settings env).2 "AWS_REGION" =
        some (load_athena_settings env).1.region ∧
     (load_athena_settings env).2 "AWS_DEFAULT_REGION" =
        some (load_athena_settings env).1.region ∧
     (load_athena_settings env).2 "ATHENA_DATABASE" =
        some (load_athena_settings env).1.database ∧
     (load_athena_settings env).2 "ATHENA_WORKGROUP" =
        (load_athena_settings env).1.workgroup ∧
     (load_athena_settings env).2 "ATHENA_CATALOG" =
        some (load_athena_settings env).1.catalog ∧
     (load_athena_settings env).2 "ATHENA_OUTPUT" =
        (load_athena_settings env).1.output) ∧
    missing_database_guard (load_athena_settings env).1 = false := by
  have hdb : (load_athena_settings env).1.database ≠ "" :=
    pyOr_ne_empty _ _ (by decide)
  refine ⟨⟨pyOr2_ne_empty _ _ _ (by decide), hdb,
    pyOr_ne_empty _ _ (by decide)⟩, ?_, ?_, ?_, ?_, ?_⟩
  · intro h1 h2
    have : pyOrOpt (env "AWS_REGION") = none := by
      rcases h1 with h | h <;> simp [pyOrOpt, h]
    simp [load_athena_settings, pyOr2, this, pyOr_falsy _ _ h2]
  · intro h1
    exact pyOr_falsy _ _ h1
  · intro h1
    exact pyOr_falsy _ _ h1
  · refine ⟨?_, ?_, ?_, ?_, ?_, ?_⟩ <;>
      simp [load_athena_settings, AthenaSettings.apply, set_env_var]
  · simp [missing_database_guard, hdb]

/-- C9 witness: with an empty process environment all three defaults apply. -/
theorem C9_settings_witness :
    (load_athena_settings (fun _ => none)).1.region = "us-east-1" ∧
    (load_athena_settings (fun _ => none)).1.database = "super_store_data" ∧
    (load_athena_settings (fun _ => none)).1.catalog = "AwsDataCatalog" := by
  have h := C9_settings (fun _ => none)
  exact ⟨h.2.1 (Or.inl rfl) (Or.inl rfl), h.2.2.1 (Or.inl rfl),
    h.2.2.2.1 (Or.inl rfl)⟩

/-! ## _extract_sql (src/src/app.py lines 204-209)

    match = re.search(r"```sql\s*([\s\S]*?)\s*```", raw_text, flags=re.IGNORECASE)
    if match:
        return match.group(1).strip()
    fallback = re.search(r"\bselect\b[\s\S]+", raw_text, flags=re.IGNORECASE)
    return fallback.group(0).strip() if fallback else ""

The two regex searches are embedded by deriving their matching semantics for
these concrete patterns.

For the fenced pattern: re.search matches at the leftmost position i where
the literal prefix of three backticks followed by sql (case-insensitive)
occurs and the remainder of the pattern can match.  Since the lazy group
[\s\S]*? accepts any characters, the pattern completes from i exactly when a
three-backtick close occurs at some position k with i + 6 <= k.  Both \s*
pieces only shift whitespace between themselves and the group, and the group
value is trimmed afterwards, so group(1).strip() equals the strip of the
text between the end of the opening token (i + 6) and the first
three-backtick occurrence c with i + 6 <= c (backtracking tries smaller
group extents first, and no close can hide inside runs of whitespace because
a backtick is not whitespace).

For the fallback pattern: a match at i needs a word boundary before i, the
six letters of select (case-insensitive), and then \b[\s\S]+, which holds
exactly when a character exists at position i + 6 and is not a word
character (the boundary after the final t needs a non-word character or end
of text, and [\s\S]+ additionally needs at least one character).  The match
is greedy to the end of the text, so group(0).strip() is the strip of the
suffix starting at the leftmost such i.  Word characters are modelled as
ASCII alphanumerics plus underscore (Python \w is Unicode-aware; all claim
inputs are ASCII). -/

/-- ASCII whitespace, the characters stripped by Python str.strip() and
matched by regex \s (ASCII subset). -/
def pyIsSpace (c : Char) : Bool :=
  c = ' ' || c = '\t' || c = '\n' || c = '\r' || c = '\x0b' || c = '\x0c'

/-- Python str.strip(): drop leading and trailing whitespace. -/
def pyStrip (l : List Char) : List Char :=
  ((l.dropWhile pyIsSpace).reverse.dropWhile pyIsSpace).reverse

/-- Case-insensitive character comparison (re.IGNORECASE, ASCII). -/
def charCI (a b : Char) : Bool := a.toLower = b.toLower

/-- Does the pattern occur (case-insensitively) at position i of s? -/
def matchCIAt (pat s : List Char) (i : Nat) : Bool :=
  decide (i + pat.length ≤ s.length) &&
    (((s.drop i).take pat.length).zip pat).all (fun p => charCI p.1 p.2)

/-- The opening token of the fenced pattern: three backticks then sql. -/
def fenceOpenPat : List Char := "```sql".data

/-- The closing token: three backticks. -/
def ticksPat : List Char := "```".data

/-- The opening token occurs at position i. -/
def fenceOpenAt (s : List Char) (i : Nat) : Bool := matchCIAt fenceOpenPat s i

/-- A three-backtick close occurs at position i. -/
def ticksAt (s : List Char) (i : Nat) : Bool := matchCIAt ticksPat s i

/-- Word character for the regex word boundary \b (ASCII model of \w). -/
def isWordChar (c : Char) : Bool := c.isAlphanum || c = '_'

/-- The keyword of the fallback pattern. -/
def selectPat : List Char := "select".data

/-- The fallback regex \bselect\b[\s\S]+ matches at position i: word
boundary before i, the keyword, then a character that is not a word
character (which realises both the trailing boundary and the mandatory
[\s\S]+ character). -/
def selectMatchAt (s : List Char) (i : Nat) : Bool :=
  matchCIAt selectPat s i &&
    (decide (i = 0) || !isWordChar (s.getD (i - 1) ' ')) &&
    (decide (i + 6 < s.length) && !isWordChar (s.getD (i + 6) ' '))

/-- First index at or after i (within fuel steps) satisfying p. -/
def firstIdx (p : Nat → Bool) : Nat → Nat → Option Nat
  | 0, _ => none
  | fuel + 1, i => if p i then some i else firstIdx p fuel (i + 1)

/-- Leftmost position of an opening token from which the fenced pattern can
complete (a close exists at or after the end of the opening token). -/
def fencedOpenIdx (s : List Char) : Option Nat :=
  firstIdx
    (fun i => fenceOpenAt s i &&
      (firstIdx (fun k => ticksAt s k) (s.length + 1) (i + 6)).isSome)
    (s.length + 1) 0

/-- Leftmost position at which the fallback select pattern matches. -/
def selectIdx (s : List Char) : Option Nat :=
  firstIdx (fun i => selectMatchAt s i) (s.length + 1) 0

/-- _extract_sql of src/src/app.py: fenced block first (strip of the text
between the opening token and the first close), else the fallback (strip of
the suffix from the keyword match), else empty. -/
def extract_sql (s : List Char) : List Char :=
  match fencedOpenIdx s with
  | some i =>
      match firstIdx (fun k => ticksAt s k) (s.length + 1) (i + 6) with
      | some c => pyStrip ((s.take c).drop (i + 6))
      | none => []
  | none =>
      match selectIdx s with
      | some i => pyStrip (s.drop i)
      | none => []

theorem firstIdx_some (p : Nat → Bool) (fuel i j : Nat)
    (h : firstIdx p fuel i = some j) :
    p j = true ∧ i ≤ j ∧ ∀ m, i ≤ m → m < j → p m = false := by
  induction fuel generalizing i with
  | zero => cases h
  | succ fuel ih =>
      by_cases hp : p i = true
      · simp only [firstIdx, if_pos hp, Option.some.injEq] at h
        subst h
        exact ⟨hp, Nat.le_refl i,
          fun m h1 h2 => absurd (Nat.lt_of_lt_of_le h2 h1) (Nat.lt_irrefl m)⟩
      · simp only [firstIdx, if_neg hp] at h
        obtain ⟨hj, hij, hmin⟩ := ih (i + 1) h
        refine ⟨hj, by omega, fun m h1 h2 => ?_⟩
        rcases Nat.eq_or_lt_of_le h1 with h3 | h3
        · rw [← h3]
          revert hp
          cases p i <;> simp
        · exact hmin m (by omega) h2

theorem firstIdx_of (p : Nat → Bool) (fuel i j : Nat) (hij : i ≤ j)
    (hjf : j < i + fuel) (hj : p j = true)
    (hmin : ∀ m, i ≤ m → m < j → p m = false) :
    firstIdx p fuel i = some j := by
  induction fuel generalizing i with
  | zero => omega
  | succ fuel ih =>
      by_cases hp : p i = true
      · have hij' : i = j := by
          by_contra hne
          have hlt : i < j := Nat.lt_of_le_of_ne hij hne
          rw [hmin i (Nat.le_refl i) hlt] at hp
          cases hp
        subst hij'
        simp only [firstIdx, if_pos hp]
      · have hpf : p i = false := by
          revert hp
          cases p i <;> simp
        have hij' : i + 1 ≤ j := by
          rcases Nat.eq_or_lt_of_le hij with h | h
          · subst h
            rw [hj] at hpf
            cases hpf
          · omega
        simp only [firstIdx, if_neg hp]
        exact ih (i + 1) hij' (by omega) (fun m h1 h2 => hmin m (by omega) h2)

theorem matchCIAt_length (pat s : List Char) (i : Nat)
    (h : matchCIAt pat s i = true) : i + pat.length ≤ s.length := by
  simp only [matchCIAt, Bool.and_eq_true, decide_eq_true_eq] at h
  exact h.1

/-- If no position of s carries an opening token, the fenced pattern can
never match (helper for witnesses: the quantifier over all positions reduces
to the positions inside the text). -/
theorem noFence_of_bounded (s : List Char)
    (h : ∀ i, i < s.length → fenceOpenAt s i = false) :
    ∀ i, fenceOpenAt s i = true → ∀ k, i + 6 ≤ k → ticksAt s k = false := by
  intro i hi
  have hlen := matchCIAt_length fenceOpenPat s i hi
  have h6 : fenceOpenPat.length = 6 := rfl
  have hlt : i < s.length := by omega
  rw [h i hlt] at hi
  cases hi

/-- C1 (counterexample): the raw text consisting of the single word select
contains no fenced block and contains a word-bounded case-insensitive
occurrence of the keyword select at position 0, so the claim predicts the
trimmed suffix select; but the fallback regex \bselect\b[\s\S]+ needs at
least one character after the keyword, so the code returns the empty
string. -/
theorem C1_counterexample :
    fencedOpenIdx "select".data = none ∧
    (matchCIAt selectPat "select".data 0 = true ∧
      pyStrip (List.drop 0 "select".data) = "select".data) ∧
    extract_sql "select".data = [] ∧
    "select".data ≠ ([] : List Char) := by
  refine ⟨by decide, ⟨by decide, by decide⟩, by decide, by decide⟩

/-- C1 (amended): extract_sql behaves in exactly three cases.  If the text
contains an opening token (three backticks then sql, case-insensitively)
with a three-backtick close anywhere at or after its end, then for the first
such opening position i and the first close position c at or after i + 6 the
result is the trimmed text strictly between them, independent of any
surrounding prose.  Otherwise, if the fallback pattern matches (a
word-bounded case-insensitive occurrence of select followed by at least one
further, non-word character), the result is the trimmed suffix from the
first such occurrence.  Otherwise — including a word-bounded select with
nothing after it, where the original claim predicted the trimmed suffix —
the result is empty. -/
theorem C1_extract (s : List Char) :
    (∀ i c : Nat,
      (fenceOpenAt s i = true ∧ (∃ k, i + 6 ≤ k ∧ ticksAt s k = true) ∧
        (∀ j, j < i → fenceOpenAt s j = false)) →
      (i + 6 ≤ c ∧ ticksAt s c = true ∧
        (∀ k, k < c → i + 6 ≤ k → ticksAt s k = false)) →
      extract_sql s = pyStrip ((s.take c).drop (i + 6))) ∧
    ((∀ i, fenceOpenAt s i = true → ∀ k, i + 6 ≤ k → ticksAt s k = false) →
      ∀ i, selectMatchAt s i = true →
        (∀ j, j < i → selectMatchAt s j = false) →
        extract_sql s = pyStrip (s.drop i)) ∧
    ((∀ i, fenceOpenAt s i = true → ∀ k, i + 6 ≤ k → ticksAt s k = false) →
      (∀ i, selectMatchAt s i = false) →
      extract_sql s = []) := by
  have hticksBound : ∀ c, ticksAt s c = true → c ≤ s.length := by
    intro c hc
    have := matchCIAt_length ticksPat s c hc
    have h3 : ticksPat.length = 3 := rfl
    omega
  refine ⟨?_, ?_, ?_⟩
  · rintro i c ⟨hopen, ⟨k, hk6, hkt⟩, hfirst⟩ ⟨hc6, hct, hcmin⟩
    have hcb := hticksBound c hct
    have hclose : firstIdx (fun k => ticksAt s k) (s.length + 1) (i + 6) =
        some c :=
      firstIdx_of _ _ _ _ hc6 (by omega) hct
        (fun m h1 h2 => hcmin m h2 h1)
    have hopenlen := matchCIAt_length fenceOpenPat s i hopen
    have h6 : fenceOpenPat.length = 6 := rfl
    have hoi : fencedOpenIdx s = some i := by
      apply firstIdx_of
      · exact Nat.zero_le i
      · omega
      · rw [Bool.and_eq_true, hopen, hclose]
        exact ⟨rfl, rfl⟩
      · intro m hm0 hmi
        rw [Bool.and_eq_false_iff]
        left
        exact hfirst m hmi
    simp only [extract_sql, hoi, hclose]
  · intro hnof i hsel hselmin
    have hno : fencedOpenIdx s = none := by
      rcases hfo : fencedOpenIdx s with _ | ⟨j⟩
      · rfl
      · obtain ⟨hpj, _, _⟩ := firstIdx_some _ _ _ _ hfo
        rw [Bool.and_eq_true] at hpj
        obtain ⟨hjopen, hjsome⟩ := hpj
        rcases hcl : firstIdx (fun k => ticksAt s k) (s.length + 1) (j + 6)
          with _ | ⟨k⟩
        · rw [hcl] at hjsome
          cases hjsome
        · obtain ⟨hkt, hk6, _⟩ := firstIdx_some _ _ _ _ hcl
          rw [hnof j hjopen k hk6] at hkt
          cases hkt
    have hselbound : i + 6 < s.length := by
      simp only [selectMatchAt, Bool.and_eq_true, decide_eq_true_eq] at hsel
      exact hsel.2.1
    have hsi : selectIdx s = some i :=
      firstIdx_of _ _ _ _ (Nat.zero_le i) (by omega) hsel
        (fun m _ h2 => hselmin m h2)
    simp only [extract_sql, hno, hsi]
  · intro hnof hnosel
    have hno : fencedOpenIdx s = none := by
      rcases hfo : fencedOpenIdx s with _ | ⟨j⟩
      · rfl
      · obtain ⟨hpj, _, _⟩ := firstIdx_some _ _ _ _ hfo
        rw [Bool.and_eq_true] at hpj
        obtain ⟨hjopen, hjsome⟩ := hpj
        rcases hcl : firstIdx (fun k => ticksAt s k) (s.length + 1) (j + 6)
          with _ | ⟨k⟩
        · rw [hcl] at hjsome
          cases hjsome
        · obtain ⟨hkt, hk6, _⟩ := firstIdx_some _ _ _ _ hcl
          rw [hnof j hjopen k hk6] at hkt
          cases hkt
    have hsno : selectIdx s = none := by
      rcases hsi : selectIdx s with _ | ⟨j⟩
      · rfl
      · obtain ⟨hpj, _, _⟩ := firstIdx_some _ _ _ _ hsi
        rw [hnosel j] at hpj
        cases hpj
    simp only [extract_sql, hno, hsno]

/-- C1 witness: a fenced block surrounded by prose on both sides is
extracted and trimmed; a keyword fallback on a fence-free text returns the
trimmed suffix. -/
theorem C1_extract_witness :
    extract_sql "Answer:\n```sql\nSELECT 1\n```\nok".data =
      "SELECT 1".data ∧
    extract_sql "use select *".data = "select *".data := by
  constructor
  · have h := (C1_extract "Answer:\n```sql\nSELECT 1\n```\nok".data).1 8 24
      ⟨by decide, ⟨24, by decide, by decide⟩, by decide⟩
      ⟨by decide, by decide, by decide⟩
    rw [h]
    decide
  · have h := (C1_extract "use select *".data).2.1
      (noFence_of_bounded _ (by decide)) 4 (by decide) (by decide)
    rw [h]
    decide

/-! ## _wait_for_query (src/src/services/athena.py lines 30-39) and the
terminal-state check of run_athena_query (lines 116-119)

    start = time.time()
    while True:
        resp = athena.get_query_execution(QueryExecutionId=qid)
        state = resp.QueryExecution.Status.State
        if state in ("SUCCEEDED", "FAILED", "CANCELLED"): return state, resp
        if time.time() - start > timeout_s: raise TimeoutError(...)
        time.sleep(poll_s)

The remote service is abstracted to the trace of statuses the poll calls
observe (status n is the n-th response) and the elapsed wall-clock time read
right after each call (elapsed n, a rational; sleeping only advances time).
Raising is modelled with a structured error value, and a fuel argument makes
the unbounded while-loop a total function: none means the loop is still
running after fuel iterations. -/

/-- Athena query execution states. -/
inductive QueryState where
  | queued
  | running
  | succeeded
  | failed
  | cancelled
deriving DecidableEq

/-- The wire name of a state, used in the error message format string. -/
def QueryState.name : QueryState → String
  | .queued => "QUEUED"
  | .running => "RUNNING"
  | .succeeded => "SUCCEEDED"
  | .failed => "FAILED"
  | .cancelled => "CANCELLED"

/-- state in ("SUCCEEDED", "FAILED", "CANCELLED"). -/
def isTerminal (st : QueryState) : Bool :=
  st = QueryState.succeeded || st = QueryState.failed ||
    st = QueryState.cancelled

/-- One get_query_execution response, reduced to the fields read. -/
structure QueryStatus where
  state : QueryState
  stateChangeReason : Option String

/-- The errors run_athena_query can raise after submission. -/
inductive AthenaError where
  | timeoutErr (timeout_s : ℚ) (qid : String)
  | remoteErr (message : String)

/-- Status.get("StateChangeReason", "Unknown error"). -/
def stateReason (q : QueryStatus) : String :=
  q.stateChangeReason.getD "Unknown error"

/-- _wait_for_query: poll the status trace until a terminal state (returning
it with the index of the final response) or until the elapsed time exceeds
the timeout (raising TimeoutError).  none = still looping after fuel polls. -/
def wait_for_query (status : Nat → QueryStatus) (elapsed : Nat → ℚ)
    (timeout_s : ℚ) (qid : String) :
    Nat → Nat → Option (Except AthenaError (QueryState × Nat))
  | 0, _ => none
  | fuel + 1, n =>
      if isTerminal (status n).state then
        some (Except.ok ((status n).state, n))
      else if timeout_s < elapsed n then
        some (Except.error (AthenaError.timeoutErr timeout_s qid))
      else wait_for_query status elapsed timeout_s qid fuel (n + 1)

/-- run_athena_query after submission: wait for the query, raise
RuntimeError(f"Athena query (state): (reason)") on a non-success terminal
state, otherwise collect the paginated rows. -/
def run_query_outcome (status : Nat → QueryStatus) (elapsed : Nat → ℚ)
    (timeout_s : ℚ) (qid : String) (fuel : Nat)
    (pages : List QueryPage) (maxRows : Int) :
    Option (Except AthenaError (List String × List (List String))) :=
  match wait_for_query status elapsed timeout_s qid fuel 0 with
  | none => none
  | some (Except.error e) => some (Except.error e)
  | some (Except.ok (st, n)) =>
      if st = QueryState.succeeded then
        some (Except.ok (resultColumns pages, collect_query_rows pages maxRows))
      else
        some (Except.error (AthenaError.remoteErr
          ("Athena query " ++ st.name ++ ": " ++ stateReason (status n))))

theorem wait_for_query_timeout (status : Nat → QueryStatus)
    (elapsed : Nat → ℚ) (t : ℚ) (qid : String) (N : Nat)
    (h1 : ∀ k, isTerminal (status k).state = false)
    (h3 : t < elapsed N) :
    ∀ fuel n, n ≤ N → N < n + fuel →
      wait_for_query status elapsed t qid fuel n =
        some (Except.error (AthenaError.timeoutErr t qid)) := by
  intro fuel
  induction fuel with
  | zero => intro n _ h; omega
  | succ fuel ih =>
      intro n hnN hNf
      rw [show wait_for_query status elapsed t qid (fuel + 1) n =
          (if isTerminal (status n).state then
            some (Except.ok ((status n).state, n))
          else if t < elapsed n then
            some (Except.error (AthenaError.timeoutErr t qid))
          else wait_for_query status elapsed t qid fuel (n + 1)) from rfl]
      rw [h1 n, if_neg (by simp)]
      by_cases ht : t < elapsed n
      · rw [if_pos ht]
      · rw [if_neg ht]
        have hne : n ≠ N := by
          intro hEq
          exact ht (hEq ▸ h3)
        exact ih (n + 1) (by omega) (by omega)

/-- C3: whenever the polling loop returns, the returned state is terminal
(it never returns a partial or in-progress result); on a trace that never
reaches a terminal state, once the (monotone) elapsed time exceeds the
timeout the loop raises the timeout error and never returns; and a
non-success terminal state makes run_query raise a remote-service error
whose message ends with the state-change reason of the final response. -/
theorem C3_polling :
    (∀ (status : Nat → QueryStatus) (elapsed : Nat → ℚ) (t : ℚ)
        (qid : String) (fuel n : Nat) (st : QueryState) (m : Nat),
      wait_for_query status elapsed t qid fuel n =
        some (Except.ok (st, m)) →
      isTerminal st = true) ∧
    (∀ (status : Nat → QueryStatus) (elapsed : Nat → ℚ) (t : ℚ)
        (qid : String) (N fuel : Nat),
      (∀ k, isTerminal (status k).state = false) →
      t < elapsed N → N < fuel →
      wait_for_query status elapsed t qid fuel 0 =
        some (Except.error (AthenaError.timeoutErr t qid))) ∧
    (∀ (status : Nat → QueryStatus) (elapsed : Nat → ℚ) (t : ℚ)
        (qid : String) (fuel : Nat) (pages : List QueryPage) (maxRows : Int)
        (st : QueryState) (n : Nat),
      wait_for_query status elapsed t qid fuel 0 =
        some (Except.ok (st, n)) →
      st ≠ QueryState.succeeded →
      ∃ p, run_query_outcome status elapsed t qid fuel pages maxRows =
        some (Except.error (AthenaError.remoteErr
          (p ++ stateReason (status n))))) := by
  refine ⟨?_, ?_, ?_⟩
  · intro status elapsed t qid fuel
    induction fuel with
    | zero => intro n st m h; cases h
    | succ fuel ih =>
        intro n st m h
        rw [show wait_for_query status elapsed t qid (fuel + 1) n =
            (if isTerminal (status n).state then
              some (Except.ok ((status n).state, n))
            else if t < elapsed n then
              some (Except.error (AthenaError.timeoutErr t qid))
            else wait_for_query status elapsed t qid fuel (n + 1)) from
          rfl] at h
        by_cases hterm : isTerminal (status n).state = true
        · rw [if_pos hterm] at h
          obtain ⟨h1, _⟩ := Prod.mk.injEq .. ▸ Except.ok.injEq .. ▸
            (Option.some.injEq _ _ ▸ h :)
          exact h1 ▸ hterm
        · rw [if_neg hterm] at h
          by_cases ht : t < elapsed n
          · rw [if_pos ht] at h
            cases h
          · rw [if_neg ht] at h
            exact ih (n + 1) st m h
  · intro status elapsed t qid N fuel h1 h3 hNf
    exact wait_for_query_timeout status elapsed t qid N h1 h3 fuel 0
      (Nat.zero_le N) (by omega)
  · intro status elapsed t qid fuel pages maxRows st n hwait hne
    refine ⟨"Athena query " ++ st.name ++ ": ", ?_⟩
    simp only [run_query_outcome, hwait]
    rw [if_neg hne]

/-- C3 witness: a never-terminal trace with linearly growing time raises the
timeout once past 120, and a FAILED trace yields a remote error ending with
the state-change reason. -/
theorem C3_polling_witness :
    wait_for_query (fun _ => ⟨QueryState.running, none⟩) (fun n => (n : ℚ))
        120 "qid-1" 130 0 =
      some (Except.error (AthenaError.timeoutErr 120 "qid-1")) ∧
    (∃ p, run_query_outcome (fun _ => ⟨QueryState.failed, some "boom"⟩)
        (fun _ => (0 : ℚ)) 120 "qid-1" 1 [] 100 =
      some (Except.error (AthenaError.remoteErr (p ++ "boom")))) := by
  constructor
  · exact C3_polling.2.1 (fun _ => ⟨QueryState.running, none⟩)
      (fun n => (n : ℚ)) 120 "qid-1" 121 130 (fun k => rfl)
      (by norm_num) (by norm_num)
  · exact C3_polling.2.2 (fun _ => ⟨QueryState.failed, some "boom"⟩)
      (fun _ => (0 : ℚ)) 120 "qid-1" 1 [] 100 QueryState.failed 0 rfl
      (by decide)

/-- Python str.lower() for ASCII data, evaluated characterwise (the
builtin String.toLower is not kernel-reducible). -/
def pyLower (s : String) : String :=
  String.mk (s.data.map Char.toLower)

/-! ## _build_chart (src/src/app.py lines 229-280)

    if not records: return None
    sample = records[0]
    numeric_candidates = [keys whose value float() accepts]
    preferred = [sales, amount, revenue, profit, count, order count,
                 quantity, total]
    y_field = first key (in insertion order) matching the first preferred
              name (case-insensitively) that any key matches
    if not y_field and numeric_candidates: y_field = numeric_candidates[0]
    x_field = first key != y_field
    if not x_field or not y_field: return None
    return bar spec with the records embedded unchanged

Records are the dicts produced by records_from_table, modelled as
association lists of column name to optional cell string.  float() is
modelled by an ASCII parser of the CPython float-literal grammar (optional
surrounding whitespace, optional sign, digit runs with PEP-515 underscores,
optional fraction dot and exponent, or the words inf, infinity, nan
case-insensitively); float(None) raises, so a None cell is never numeric. -/

/-- Greedy continuation of a digit run: digits with single underscores
between digits (PEP 515). -/
def digitRunTail : List Char → List Char
  | '_' :: d :: rest =>
      if d.isDigit then digitRunTail rest else '_' :: d :: rest
  | d :: rest => if d.isDigit then digitRunTail rest else d :: rest
  | [] => []

/-- A digit run: at least one digit, then digitRunTail.  Returns the
remaining input, or none when there is no leading digit. -/
def digitRun : List Char → Option (List Char)
  | d :: rest => if d.isDigit then some (digitRunTail rest) else none
  | [] => none

/-- Case-insensitive equality of a char list with a literal word. -/
def ciEqAll (l pat : List Char) : Bool :=
  decide (l.length = pat.length) && (l.zip pat).all (fun p => charCI p.1 p.2)

/-- Optional exponent part: empty, or e/E, optional sign, digit run
consuming the whole rest. -/
def expPart : List Char → Bool
  | [] => true
  | c :: rest =>
      if c = 'e' || c = 'E' then
        match rest with
        | s :: rest2 =>
            if s = '+' || s = '-' then
              match digitRun rest2 with
              | some r => r.isEmpty
              | none => false
            else
              match digitRun (s :: rest2) with
              | some r => r.isEmpty
              | none => false
        | [] => false
      else false

/-- After the integer digits: optional dot with optional fraction digits,
then the optional exponent. -/
def afterIntPart : List Char → Bool
  | '.' :: rest =>
      (match digitRun rest with
        | some r => expPart r
        | none => expPart rest)
  | l => expPart l

/-- A decimal float body (no sign): digits [. [digits]] [exp], or
. digits [exp]. -/
def decimalBody (l : List Char) : Bool :=
  match l with
  | '.' :: rest =>
      (match digitRun rest with
        | some r => expPart r
        | none => false)
  | _ =>
      (match digitRun l with
        | some r => afterIntPart r
        | none => false)

/-- The float body after the optional sign. -/
def floatBody (l : List Char) : Bool :=
  ciEqAll l "inf".data || ciEqAll l "infinity".data ||
    ciEqAll l "nan".data || decimalBody l

/-- Does CPython float(s) accept the string s? -/
def pyFloatAccepts (s : String) : Bool :=
  match pyStrip s.data with
  | '+' :: rest => floatBody rest
  | '-' :: rest => floatBody rest
  | l => floatBody l

/-- float(value) succeeds for an optional cell: a None cell raises. -/
def pyFloatOkOpt : Option String → Bool
  | none => false
  | some s => pyFloatAccepts s

/-- The keys of the first record whose values float() accepts, in order. -/
def numericCandidates (sample : List (String × Option String)) :
    List String :=
  (sample.filter (fun kv => pyFloatOkOpt kv.2)).map (fun kv => kv.1)

/-- The fixed y-field preference list of _build_chart. -/
def preferredNames : List String :=
  ["sales", "amount", "revenue", "profit", "count", "order count",
   "quantity", "total"]

/-- The nested preference scan: for the first preferred name matched by any
key (case-insensitively), the first such key. -/
def preferredYField (sample : List (String × Option String)) :
    Option String :=
  preferredNames.findSome? (fun cand =>
    (sample.find? (fun kv => pyLower kv.1 = cand)).map (fun kv => kv.1))

/-- y-field selection: preference scan, then first numeric candidate. -/
def yFieldOf (sample : List (String × Option String)) : Option String :=
  match preferredYField sample with
  | some y => some y
  | none =>
      match numericCandidates sample with
      | [] => none
      | k :: _ => some k

/-- x-field selection: the first key different from the chosen y-field
(Python key != y_field also holds for every key when y_field is None). -/
def xFieldOf (sample : List (String × Option String)) (y : Option String) :
    Option String :=
  (sample.find? (fun kv => decide (some kv.1 ≠ y))).map (fun kv => kv.1)

/-- Python truthiness check not value for an optional string. -/
def pyFalsy : Option String → Bool
  | none => true
  | some s => s = ""

/-- The Vega-Lite bar spec _build_chart emits, reduced to the varying
fields; the records are embedded unchanged as the data values. -/
structure ChartSpec where
  dataValues : List (List (String × Option String))
  mark : String
  xField : String
  xSort : String
  yField : String

/-- _build_chart of src/src/app.py. -/
def build_chart (records : List (List (String × Option String))) :
    Option ChartSpec :=
  match records with
  | [] => none
  | sample :: _ =>
      let y := yFieldOf sample
      let x := xFieldOf sample y
      if pyFalsy x || pyFalsy y then none
      else
        some { dataValues := records, mark := "bar", xField := x.getD "",
               xSort := "-y", yField := y.getD "" }

theorem find?_first {α : Type} (l : List α) (p : α → Bool) (ki : Nat)
    (hki : ki < l.length) (hp : p l[ki] = true)
    (hmin : ∀ a ∈ l.take ki, p a = false) :
    l.find? p = some l[ki] := by
  induction l generalizing ki with
  | nil => exact absurd hki (Nat.not_lt_zero ki)
  | cons a l ih =>
      cases ki with
      | zero =>
          simp only [List.getElem_cons_zero] at hp ⊢
          exact List.find?_cons_of_pos _ hp
      | succ kj =>
          have ha : p a = false := hmin a (by simp [List.take_succ_cons])
          simp only [List.getElem_cons_succ] at hp ⊢
          rw [List.find?_cons_of_neg _ (by simp [ha])]
          exact ih kj (Nat.lt_of_succ_lt_succ hki) hp
            (fun b hb => hmin b (by simp [List.take_succ_cons, hb]))

theorem findSome?_first {α β : Type} (l : List α) (f : α → Option β)
    (i : Nat) (hi : i < l.length) (b : β) (hf : f l[i] = some b)
    (hmin : ∀ a ∈ l.take i, f a = none) :
    l.findSome? f = some b := by
  induction l generalizing i with
  | nil => exact absurd hi (Nat.not_lt_zero i)
  | cons a l ih =>
      cases i with
      | zero =>
          simp only [List.getElem_cons_zero] at hf
          rw [List.findSome?_cons, hf]
      | succ j =>
          have ha : f a = none := hmin a (by simp [List.take_succ_cons])
          simp only [List.getElem_cons_succ] at hf
          rw [List.findSome?_cons, ha]
          exact ih j (Nat.lt_of_succ_lt_succ hi) hf
            (fun c hc => hmin c (by simp [List.take_succ_cons, hc]))

theorem findSome?_none {α β : Type} (l : List α) (f : α → Option β)
    (h : ∀ a ∈ l, f a = none) : l.findSome? f = none := by
  induction l with
  | nil => rfl
  | cons a l ih =>
      rw [List.findSome?_cons, h a (List.mem_cons_self a l)]
      exact ih (fun b hb => h b (List.mem_cons_of_mem a hb))

theorem filter_first {α : Type} (l : List α) (p : α → Bool) (ki : Nat)
    (hki : ki < l.length) (hp : p l[ki] = true)
    (hmin : ∀ a ∈ l.take ki, p a = false) :
    ∃ t, l.filter p = l[ki] :: t := by
  induction l generalizing ki with
  | nil => exact absurd hki (Nat.not_lt_zero ki)
  | cons a l ih =>
      cases ki with
      | zero =>
          refine ⟨l.filter p, ?_⟩
          simp only [List.getElem_cons_zero] at hp ⊢
          rw [List.filter_cons, if_pos hp]
      | succ kj =>
          have ha : p a = false := hmin a (by simp [List.take_succ_cons])
          simp only [List.getElem_cons_succ] at hp ⊢
          rw [List.filter_cons, if_neg (by simp [ha])]
          exact ih kj (Nat.lt_of_succ_lt_succ hki) hp
            (fun b hb => hmin b (by simp [List.take_succ_cons, hb]))

/-- C4: the chart builder selects the y-field by scanning the preference
list in order, case-insensitively, against the keys of the first record (so
sales wins over any other numeric column); falls back to the first key
whose value float() accepts when no preferred name matches; selects the
x-field as the first key distinct from the chosen y-field; produces no
chart when the record list is empty or either field is unresolved; and
when both fields resolve to non-empty names it emits the bar spec with
those fields and the records embedded unchanged. -/
theorem C4_build_chart :
    (build_chart [] = none) ∧
    (∀ (sample : List (String × Option String)) (ci ki : Nat)
        (hci : ci < preferredNames.length) (hki : ki < sample.length),
      pyLower sample[ki].1 = preferredNames[ci] →
      (∀ cand ∈ preferredNames.take ci, ∀ kv ∈ sample,
        pyLower kv.1 ≠ cand) →
      (∀ kv ∈ sample.take ki, pyLower kv.1 ≠ preferredNames[ci]) →
      yFieldOf sample = some sample[ki].1) ∧
    (∀ (sample : List (String × Option String)) (ki : Nat)
        (hki : ki < sample.length),
      (∀ kv ∈ sample, ∀ cand ∈ preferredNames, pyLower kv.1 ≠ cand) →
      pyFloatOkOpt sample[ki].2 = true →
      (∀ kv ∈ sample.take ki, pyFloatOkOpt kv.2 = false) →
      yFieldOf sample = some sample[ki].1) ∧
    (∀ (sample : List (String × Option String)) (y : Option String)
        (ki : Nat) (hki : ki < sample.length),
      some sample[ki].1 ≠ y →
      (∀ kv ∈ sample.take ki, some kv.1 = y) →
      xFieldOf sample y = some sample[ki].1) ∧
    (∀ sample rest,
      yFieldOf sample = none ∨ xFieldOf sample (yFieldOf sample) = none →
      build_chart (sample :: rest) = none) ∧
    (∀ sample rest x y,
      xFieldOf sample (yFieldOf sample) = some x →
      yFieldOf sample = some y → x ≠ "" → y ≠ "" →
      build_chart (sample :: rest) =
        some { dataValues := sample :: rest, mark := "bar", xField := x,
               xSort := "-y", yField := y }) := by
  refine ⟨rfl, ?_, ?_, ?_, ?_, ?_⟩
  · intro sample ci ki hci hki hmatch hcmin hkmin
    have hfind : sample.find?
        (fun kv => pyLower kv.1 = preferredNames[ci]) = some sample[ki] :=
      find?_first sample _ ki hki (by simp [hmatch])
        (fun a ha => by simp [hkmin a ha])
    have hy : preferredYField sample = some sample[ki].1 := by
      apply findSome?_first preferredNames _ ci hci
      · rw [hfind]
        rfl
      · intro cand hcand
        have hnone : sample.find? (fun kv => pyLower kv.1 = cand) = none := by
          rw [List.find?_eq_none]
          intro kv hkv hcon
          exact hcmin cand hcand kv hkv (by simpa using hcon)
        rw [hnone]
        rfl
    rw [yFieldOf, hy]
  · intro sample ki hki hnopref hnum hkmin
    have hpn : preferredYField sample = none := by
      apply findSome?_none
      intro cand hcand
      have hnone : sample.find? (fun kv => pyLower kv.1 = cand) = none := by
        rw [List.find?_eq_none]
        intro kv hkv hcon
        exact hnopref kv hkv cand hcand (by simpa using hcon)
      rw [hnone]
      rfl
    obtain ⟨t, ht⟩ := filter_first sample (fun kv => pyFloatOkOpt kv.2) ki
      hki hnum hkmin
    rw [yFieldOf, hpn, numericCandidates, ht]
    rfl
  · intro sample y ki hki hne hkmin
    have hfind : sample.find? (fun kv => decide (some kv.1 ≠ y)) =
        some sample[ki] :=
      find?_first sample _ ki hki (by simp [hne])
        (fun a ha => by simp [hkmin a ha])
    rw [xFieldOf, hfind]
    rfl
  · intro sample rest hnone
    rcases hnone with hy | hx
    · have hxv : pyFalsy (yFieldOf sample) = true := by rw [hy]; rfl
      simp only [build_chart, hxv, Bool.or_true, if_true]
    · have hxv : pyFalsy (xFieldOf sample (yFieldOf sample)) = true := by
        rw [hx]; rfl
      simp only [build_chart, hxv, Bool.true_or, if_true]
  · intro sample rest x y hx hy hxne hyne
    have hfx : pyFalsy (some x) = false := by simpa [pyFalsy] using hxne
    have hfy : pyFalsy (some y) = false := by simpa [pyFalsy] using hyne
    rw [hy] at hx
    simp only [build_chart, hy, hx, hfx, hfy, Bool.or_false, if_false]
    rfl

/-- C4 witness: with keys profit and sales both numeric, sales (first in
the preference list) wins as y even though profit appears first; x is the
first key distinct from y; and the produced spec embeds the records
unchanged. -/
theorem C4_build_chart_witness :
    yFieldOf [("profit", some "1"), ("sales", some "2")] = some "sales" ∧
    xFieldOf [("profit", some "1"), ("sales", some "2")] (some "sales") =
      some "profit" ∧
    build_chart [[("profit", some "1"), ("sales", some "2")]] =
      some { dataValues := [[("profit", some "1"), ("sales", some "2")]],
             mark := "bar", xField := "profit", xSort := "-y",
             yField := "sales" } := by
  have hy : yFieldOf [("profit", some "1"), ("sales", some "2")] =
      some "sales" :=
    C4_build_chart.2.1 [("profit", some "1"), ("sales", some "2")]
      0 1 (by decide) (by decide) (by decide)
      (fun cand hcand kv hkv => by simp at hcand)
      (by decide)
  have hx : xFieldOf [("profit", some "1"), ("sales", some "2")]
      (yFieldOf [("profit", some "1"), ("sales", some "2")]) =
      some "profit" := by
    rw [hy]
    exact C4_build_chart.2.2.2.1
      [("profit", some "1"), ("sales", some "2")] (some "sales") 0
      (by decide) (by decide) (fun kv hkv => by simp at hkv)
  refine ⟨hy, by rw [hy] at hx; exact hx, ?_⟩
  exact C4_build_chart.2.2.2.2.2 [("profit", some "1"), ("sales", some "2")]
    [] "profit" "sales" hx hy (by decide) (by decide)

/-! ## plot_vegalite_from_query record building
(src/src/services/athena.py lines 170-197)

    def _idx(col_name):
        if not col_name: return None
        try: return cols.index(col_name)
        except ValueError:
            lower_map = \x7bc.lower(): i for i, c in enumerate(cols)\x7d
            return lower_map.get(col_name.lower())
    ix = _idx(x) or 0 ; iy = _idx(y) or 0 ; ic = _idx(color)
    for r in rows:
        rec[x] = r[ix] if ix < len(r) else None
        val_y = r[iy] if iy < len(r) else None
        if isinstance(val_y, str):
            try: rec[y] = float(val_y) if "." in val_y else int(val_y)
            except Exception: rec[y] = val_y
        else: rec[y] = val_y
        if ic is not None: rec[color] = r[ic] if ic < len(r) else None

The y cell is coerced to a float when it contains a dot and to an int
otherwise, falling back to the raw string when parsing fails.  Numeric
values are modelled as exact rationals and integers (IEEE-754 rounding is
not modelled; the claim values are dyadic and exact), so a coerced cell is
a distinct value constructor from a raw string cell. -/

/-- A value stored in a chart record: raw string, coerced float (exact
rational model), coerced int, or None. -/
inductive CellValue where
  | vstr (s : String)
  | vfloat (q : ℚ)
  | vint (n : Int)
  | vnone
deriving DecidableEq

/-- Greedy digit-run evaluation with PEP-515 underscores: accumulated
value, number of digits, rest. -/
def digitValTail : List Char → Nat → Nat → Nat × Nat × List Char
  | '_' :: d :: rest, acc, cnt =>
      if d.isDigit then digitValTail rest (acc * 10 + (d.toNat - 48)) (cnt + 1)
      else (acc, cnt, '_' :: d :: rest)
  | d :: rest, acc, cnt =>
      if d.isDigit then digitValTail rest (acc * 10 + (d.toNat - 48)) (cnt + 1)
      else (acc, cnt, d :: rest)
  | [], acc, cnt => (acc, cnt, [])

/-- Value of a digit run: requires a leading digit. -/
def digitVal? : List Char → Option (Nat × Nat × List Char)
  | d :: rest =>
      if d.isDigit then some (digitValTail rest (d.toNat - 48) 1) else none
  | [] => none

/-- Value of the optional exponent part (must consume the whole rest). -/
def expVal? : List Char → Option Int
  | [] => some 0
  | c :: rest =>
      if c = 'e' || c = 'E' then
        match rest with
        | '+' :: rest2 =>
            (digitVal? rest2).bind
              (fun v => if v.2.2.isEmpty then some (v.1 : Int) else none)
        | '-' :: rest2 =>
            (digitVal? rest2).bind
              (fun v => if v.2.2.isEmpty then some (-(v.1 : Int)) else none)
        | _ =>
            (digitVal? rest).bind
              (fun v => if v.2.2.isEmpty then some (v.1 : Int) else none)
      else none

/-- Value of the significand: digits [. [digits]] or . digits. -/
def mantissaVal? (l : List Char) : Option (ℚ × List Char) :=
  match l with
  | '.' :: rest =>
      (digitVal? rest).map
        (fun v => ((v.1 : ℚ) / (10 : ℚ) ^ v.2.1, v.2.2))
  | _ =>
      (digitVal? l).bind (fun v =>
        match v.2.2 with
        | '.' :: rest2 =>
            match digitVal? rest2 with
            | some w =>
                some ((v.1 : ℚ) + (w.1 : ℚ) / (10 : ℚ) ^ w.2.1, w.2.2)
            | none => some ((v.1 : ℚ), rest2)
        | r => some ((v.1 : ℚ), r))

/-- Exact value of CPython float(s) on finite decimal literals (sign,
digits, optional fraction and exponent); none when not accepted. -/
def pyFloatVal? (s : String) : Option ℚ :=
  let core : List Char → Option ℚ := fun l =>
    (mantissaVal? l).bind
      (fun m => (expVal? m.2).map (fun e => m.1 * (10 : ℚ) ^ e))
  match pyStrip s.data with
  | '+' :: rest => core rest
  | '-' :: rest => (core rest).map (fun q => -q)
  | l => core l

/-- Value of CPython int(s): optional sign then a digit run consuming the
whole (whitespace-stripped) string. -/
def pyIntVal? (s : String) : Option Int :=
  let core : List Char → Option Int := fun l =>
    (digitVal? l).bind
      (fun v => if v.2.2.isEmpty then some (v.1 : Int) else none)
  match pyStrip s.data with
  | '+' :: rest => core rest
  | '-' :: rest => (core rest).map (fun n => -n)
  | l => core l

/-- The y-cell coercion of plot_vegalite_from_query: float when the string
contains a dot, else int, falling back to the raw string; a missing cell
stays None. -/
def coerce_y (v : Option String) : CellValue :=
  match v with
  | none => CellValue.vnone
  | some s =>
      if s.data.contains '.' then
        match pyFloatVal? s with
        | some q => CellValue.vfloat q
        | none => CellValue.vstr s
      else
        match pyIntVal? s with
        | some n => CellValue.vint n
        | none => CellValue.vstr s

/-- A raw (uncoerced) cell as stored for the x and color fields. -/
def rawCell : Option String → CellValue
  | none => CellValue.vnone
  | some s => CellValue.vstr s

/-- The lower_map dict comprehension: later duplicate lowercased names
overwrite earlier ones. -/
def lowerMapAux : List String → Nat → List (String × Nat) →
    List (String × Nat)
  | [], _, d => d
  | c :: cs, i, d => lowerMapAux cs (i + 1) (dictInsert d (pyLower c) i)

/-- lower_map = dict of (c.lower(), i) over the enumerated columns. -/
def lowerMap (cols : List String) : List (String × Nat) :=
  lowerMapAux cols 0 []

/-- _idx of plot_vegalite_from_query: None for a falsy name, else the first
exact-match index, else the lower_map lookup. -/
def chart_idx (cols : List String) (name : Option String) : Option Nat :=
  match name with
  | none => none
  | some n =>
      if n = "" then none
      else
        match cols.findIdx? (fun c => c = n) with
        | some i => some i
        | none => dictGet? (lowerMap cols) (pyLower n)

/-- Python expression _idx(...) or 0 (an index of 0 is falsy and also
yields 0, so only the none case changes anything). -/
def orZeroIdx : Option Nat → Nat
  | none => 0
  | some i => i

/-- One chart record of plot_vegalite_from_query. -/
def chart_record (cols : List String) (x y : String) (color : Option String)
    (r : List String) : List (String × CellValue) :=
  let ix := orZeroIdx (chart_idx cols (some x))
  let iy := orZeroIdx (chart_idx cols (some y))
  let ic := chart_idx cols color
  let rec0 := dictInsert ([] : List (String × CellValue)) x (rawCell r[ix]?)
  let rec1 := dictInsert rec0 y (coerce_y r[iy]?)
  match ic, color with
  | some j, some ccol => dictInsert rec1 ccol (rawCell r[j]?)
  | _, _ => rec1

/-- The records plot_vegalite_from_query embeds into its spec. -/
def chart_records (cols : List String) (rows : List (List String))
    (x y : String) (color : Option String) :
    List (List (String × CellValue)) :=
  rows.map (fun r => chart_record cols x y color r)

/-- C7: for columns [region, sales] and rows [[West, 120.50], [East, 98]],
the run_query-derived records preserve the raw cell strings; the
plot_vegalite_from_query path independently coerces only its y-field cell,
turning 120.50 into the float 120.5 = 241/2 and 98 into the int 98; and the
_build_chart spec built from the table records embeds them with the raw
strings intact (the coercion lives only in the plotting path). -/
theorem C7_coercion :
    records_from_table ["region", "sales"]
        [["West", "120.50"], ["East", "98"]] =
      [[("region", some "West"), ("sales", some "120.50")],
       [("region", some "East"), ("sales", some "98")]] ∧
    chart_records ["region", "sales"] [["West", "120.50"], ["East", "98"]]
        "region" "sales" none =
      [[("region", CellValue.vstr "West"),
        ("sales", CellValue.vfloat ((241 : ℚ) / 2))],
       [("region", CellValue.vstr "East"),
        ("sales", CellValue.vint 98)]] ∧
    build_chart (records_from_table ["region", "sales"]
        [["West", "120.50"], ["East", "98"]]) =
      some { dataValues := records_from_table ["region", "sales"]
               [["West", "120.50"], ["East", "98"]],
             mark := "bar", xField := "region", xSort := "-y",
             yField := "sales" } := by
  have hfv : pyFloatVal? "120.50" =
      some ((((120 : ℕ) : ℚ) + ((50 : ℕ) : ℚ) / (10 : ℚ) ^ (2 : ℕ)) *
        (10 : ℚ) ^ (0 : ℤ)) := rfl
  have hfv2 : pyFloatVal? "120.50" = some ((241 : ℚ) / 2) := by
    rw [hfv]
    norm_num
  have hcy1 : coerce_y (some "120.50") = CellValue.vfloat ((241 : ℚ) / 2) := by
    have h1 : coerce_y (some "120.50") =
        match pyFloatVal? "120.50" with
        | some q => CellValue.vfloat q
        | none => CellValue.vstr "120.50" := rfl
    rw [h1, hfv2]
  have hrec1 : chart_record ["region", "sales"] "region" "sales" none
      ["West", "120.50"] =
      [("region", CellValue.vstr "West"),
       ("sales", coerce_y (some "120.50"))] := rfl
  have hrec2 : chart_record ["region", "sales"] "region" "sales" none
      ["East", "98"] =
      [("region", CellValue.vstr "East"), ("sales", CellValue.vint 98)] := by
    decide
  refine ⟨rfl, ?_, by rfl⟩
  show [chart_record ["region", "sales"] "region" "sales" none
          ["West", "120.50"],
        chart_record ["region", "sales"] "region" "sales" none
          ["East", "98"]] = _
  rw [hrec1, hrec2, hcy1]

/-! ## as_text (src/src/ui/helpers.py lines 9-43)

    if obj is None: return ""
    if isinstance(obj, str): return obj
    if isinstance(obj, dict):
        if "content" in obj and "role" in obj: return as_text(obj["content"])
        for key in ("text", "content", "message", "output", "response"):
            if key in obj: return as_text(obj[key])
        try: return json.dumps(obj, ensure_ascii=False)
        except Exception: return str(obj)
    if isinstance(obj, (list, tuple)):
        flattened = [as_text(item) for item in obj]
        parts = [item for item in flattened if isinstance(item, str) and item]
        if not parts: return ""
        avg_len = sum(len(part) for part in parts) / max(1, len(parts))
        separator = "" if avg_len < 3 and len(parts) > 20 else "\n\n"
        return separator.join(parts)
    for attr in ("text", "content", "message", "output", "response"):
        try: value = getattr(obj, attr)
        except Exception: value = None
        if isinstance(value, str): return value
        if value is not None: return as_text(value)
    return str(obj)

Python values are modelled as finite trees: None, strings, dicts, lists,
tuples, and opaque objects.  An opaque object carries its attribute table
(an attribute access can raise, which getattr-with-except turns into None)
and the results of str() and repr() on it, which user-defined dunders can
make raise; every other operation the code performs is total on the model.
Raising is an Except value.  The attribute fast path (return value when the
attribute value is a str) coincides with recursing, because as_text of a
string is that string, so the loop is modelled as: recurse on the first
attribute value that is neither missing nor None, else str(obj).
json.dumps succeeds exactly on object-free values; when it raises, the code
falls back to str(obj), whose repr-based rendering of containers can itself
raise only through an embedded object. -/

/-- A Python runtime value as seen by as_text. -/
inductive PyV : Type where
  | vnone
  | vstr (s : String)
  | vdict (entries : List (String × PyV))
  | vlist (items : List PyV)
  | vtuple (items : List PyV)
  | vobj (attrs : List (String × Except Unit PyV))
      (strR : Except Unit String) (reprR : Except Unit String)

/-- Dict lookup obj[k] (Python dict keys are unique; first binding wins). -/
def findVal (es : List (String × PyV)) (k : String) : Option PyV :=
  (es.find? (fun kv => kv.1 = k)).map (fun kv => kv.2)

/-- The fixed priority key tuple of as_text. -/
def textKeys : List String :=
  ["text", "content", "message", "output", "response"]

/-- The dict branch target: obj["content"] when both content and role are
present, else the value of the first present priority key. -/
def dictTarget (es : List (String × PyV)) : Option PyV :=
  if (findVal es "content").isSome && (findVal es "role").isSome then
    findVal es "content"
  else textKeys.findSome? (fun k => findVal es k)

/-- getattr(obj, k) before the except: none models AttributeError (and a
raising property is also caught to None by the code). -/
def findAttr (attrs : List (String × Except Unit PyV)) (k : String) :
    Option (Except Unit PyV) :=
  (attrs.find? (fun kv => kv.1 = k)).map (fun kv => kv.2)

/-- The first priority attribute whose getattr neither fails nor yields
None; as_text recurses on it (a string value short-circuits to itself,
which equals the recursion on it). -/
def firstAttrVal (attrs : List (String × Except Unit PyV)) : Option PyV :=
  textKeys.findSome? (fun a =>
    match findAttr attrs a with
    | some (Except.ok PyV.vnone) => none
    | some (Except.ok v) => some v
    | _ => none)

theorem findSome?_exists {α β : Type} (l : List α) (f : α → Option β)
    (b : β) (h : l.findSome? f = some b) : ∃ a ∈ l, f a = some b := by
  induction l with
  | nil => cases h
  | cons a l ih =>
      rw [List.findSome?_cons] at h
      rcases hfa : f a with _ | c
      · rw [hfa] at h
        obtain ⟨x, hx, hfx⟩ := ih h
        exact ⟨x, List.mem_cons_of_mem a hx, hfx⟩
      · rw [hfa] at h
        cases h
        exact ⟨a, List.mem_cons_self a l, hfa⟩

theorem findVal_mem (es : List (String × PyV)) (k : String) (v : PyV)
    (h : findVal es k = some v) : ∃ kv ∈ es, kv.2 = v := by
  unfold findVal at h
  rcases hk : es.find? (fun kv => kv.1 = k) with _ | kv
  · rw [hk] at h
    cases h
  · rw [hk] at h
    simp only [Option.map_some'] at h
    cases h
    exact ⟨kv, List.mem_of_find?_eq_some hk, rfl⟩

theorem findVal_sizeOf (es : List (String × PyV)) (k : String) (v : PyV)
    (h : findVal es k = some v) : sizeOf v < sizeOf es := by
  obtain ⟨kv, hmem, hv⟩ := findVal_mem es k v h
  have h1 := List.sizeOf_lt_of_mem hmem
  rcases kv with ⟨k1, v1⟩
  simp only [Prod.mk.sizeOf_spec] at h1
  cases hv
  show sizeOf v1 < sizeOf es
  omega

theorem dictTarget_sizeOf (es : List (String × PyV)) (v : PyV)
    (h : dictTarget es = some v) : sizeOf v < sizeOf es := by
  unfold dictTarget at h
  by_cases hc : ((findVal es "content").isSome &&
      (findVal es "role").isSome) = true
  · rw [if_pos hc] at h
    exact findVal_sizeOf es "content" v h
  · rw [if_neg hc] at h
    obtain ⟨a, _, hfa⟩ := findSome?_exists _ _ _ h
    exact findVal_sizeOf es a v hfa

theorem dictTarget_mem (es : List (String × PyV)) (v : PyV)
    (h : dictTarget es = some v) : ∃ kv ∈ es, kv.2 = v := by
  unfold dictTarget at h
  by_cases hc : ((findVal es "content").isSome &&
      (findVal es "role").isSome) = true
  · rw [if_pos hc] at h
    exact findVal_mem es "content" v h
  · rw [if_neg hc] at h
    obtain ⟨a, _, hfa⟩ := findSome?_exists _ _ _ h
    exact findVal_mem es a v hfa

theorem findAttr_ok_mem (attrs : List (String × Except Unit PyV))
    (a : String) (v : PyV) (h : findAttr attrs a = some (Except.ok v)) :
    ∃ kv ∈ attrs, kv.2 = Except.ok v := by
  unfold findAttr at h
  rcases hk : attrs.find? (fun kv => kv.1 = a) with _ | kv
  · rw [hk] at h
    cases h
  · rw [hk] at h
    simp only [Option.map_some'] at h
    injection h with h2
    exact ⟨kv, List.mem_of_find?_eq_some hk, h2⟩

theorem firstAttrVal_ok (attrs : List (String × Except Unit PyV)) (v : PyV)
    (h : firstAttrVal attrs = some v) : ∃ kv ∈ attrs, kv.2 = Except.ok v := by
  obtain ⟨a, _, hfa⟩ := findSome?_exists _ _ _ h
  rcases hat : findAttr attrs a with _ | e
  · rw [hat] at hfa
    cases hfa
  · rw [hat] at hfa
    rcases e with e | w
    · cases hfa
    · cases w with
      | vnone => cases hfa
      | vstr s => cases hfa; exact findAttr_ok_mem attrs a _ hat
      | vdict es => cases hfa; exact findAttr_ok_mem attrs a _ hat
      | vlist items => cases hfa; exact findAttr_ok_mem attrs a _ hat
      | vtuple items => cases hfa; exact findAttr_ok_mem attrs a _ hat
      | vobj o s r => cases hfa; exact findAttr_ok_mem attrs a _ hat

theorem firstAttrVal_sizeOf (attrs : List (String × Except Unit PyV))
    (v : PyV) (h : firstAttrVal attrs = some v) : sizeOf v < sizeOf attrs := by
  obtain ⟨kv, hmem, hv⟩ := firstAttrVal_ok attrs v h
  have h1 := List.sizeOf_lt_of_mem hmem
  rcases kv with ⟨k1, e1⟩
  simp only [Prod.mk.sizeOf_spec] at h1
  cases hv
  simp only [Except.ok.sizeOf_spec] at h1
  omega

/-- A hex digit character for JSON control-character escapes. -/
def hexDigitChar (d : Nat) : Char :=
  if d < 10 then Char.ofNat (48 + d) else Char.ofNat (87 + d)

/-- JSON escaping of one character (ensure_ascii=False: non-ASCII kept). -/
def jsonEscapeChar (c : Char) : String :=
  if c = '"' then "\\\""
  else if c = '\\' then "\\\\"
  else if c = '\n' then "\\n"
  else if c = '\t' then "\\t"
  else if c = '\r' then "\\r"
  else if c = '\x08' then "\\b"
  else if c = '\x0c' then "\\f"
  else if c.toNat < 32 then
    "\\u00" ++ String.singleton (hexDigitChar (c.toNat / 16)) ++
      String.singleton (hexDigitChar (c.toNat % 16))
  else String.singleton c

/-- JSON escaping of a character list. -/
def jsonEscapeList : List Char → String
  | [] => ""
  | c :: rest => jsonEscapeChar c ++ jsonEscapeList rest

/-- A JSON string literal. -/
def jsonQuote (s : String) : String :=
  "\"" ++ jsonEscapeList s.data ++ "\""

/-- The single-quote character (written by code so the file carries no
bare apostrophe). -/
def sQuoteChar : Char := Char.ofNat 39

/-- Python repr of a string, modelled as single-quoted with backslash
escapes (the CPython quote-choice subtlety is not needed by any claim; only
whether repr raises matters, and a str repr never raises). -/
def reprEscapeChar (c : Char) : String :=
  if c = sQuoteChar then "\\" ++ String.singleton sQuoteChar
  else if c = '\\' then "\\\\"
  else if c = '\n' then "\\n"
  else String.singleton c

/-- repr escape of a character list. -/
def reprEscapeList : List Char → String
  | [] => ""
  | c :: rest => reprEscapeChar c ++ reprEscapeList rest

/-- Python repr of a string. -/
def reprString (s : String) : String :=
  String.singleton sQuoteChar ++ reprEscapeList s.data ++
    String.singleton sQuoteChar

/-- str.join separator interleaving. -/
def joinSep (sep : String) : List String → String
  | [] => ""
  | [x] => x
  | x :: rest => x ++ sep ++ joinSep sep rest

/-- Python tuple display: trailing comma on singletons. -/
def tupleParens (parts : List String) : String :=
  match parts with
  | [x] => "(" ++ x ++ ",)"
  | _ => "(" ++ joinSep ", " parts ++ ")"

/-- Sequence a list of optional results (all-or-nothing). -/
def sequenceOpt {α : Type} : List (Option α) → Option (List α)
  | [] => some []
  | x :: rest =>
      match x, sequenceOpt rest with
      | some a, some l => some (a :: l)
      | _, _ => none

/-- Sequence a list of possibly-raising results: the first raise wins,
matching left-to-right evaluation of a Python list comprehension. -/
def sequenceE {α : Type} : List (Except Unit α) → Except Unit (List α)
  | [] => Except.ok []
  | x :: rest =>
      match x with
      | Except.error e => Except.error e
      | Except.ok a =>
          match sequenceE rest with
          | Except.error e => Except.error e
          | Except.ok l => Except.ok (a :: l)

/-- json.dumps(obj, ensure_ascii=False): defined exactly on object-free
values (an opaque object is not JSON serializable, raising TypeError). -/
def dumps : PyV → Option String
  | PyV.vnone => some "null"
  | PyV.vstr s => some (jsonQuote s)
  | PyV.vdict es =>
      (sequenceOpt (es.attach.map (fun kv =>
        (dumps kv.1.2).map
          (fun vs => jsonQuote kv.1.1 ++ ": " ++ vs)))).map
        (fun parts => "\x7b" ++ joinSep ", " parts ++ "\x7d")
  | PyV.vlist items =>
      (sequenceOpt (items.attach.map (fun it => dumps it.1))).map
        (fun parts => "[" ++ joinSep ", " parts ++ "]")
  | PyV.vtuple items =>
      (sequenceOpt (items.attach.map (fun it => dumps it.1))).map
        (fun parts => "[" ++ joinSep ", " parts ++ "]")
  | PyV.vobj _ _ _ => none
termination_by v => sizeOf v
decreasing_by
  · obtain ⟨⟨k1, v1⟩, hm⟩ := kv
    have h1 := List.sizeOf_lt_of_mem hm
    simp only [Prod.mk.sizeOf_spec] at h1
    simp only [PyV.vdict.sizeOf_spec]
    omega
  · have h1 := List.sizeOf_lt_of_mem it.2
    simp only [PyV.vlist.sizeOf_spec]
    omega
  · have h1 := List.sizeOf_lt_of_mem it.2
    simp only [PyV.vtuple.sizeOf_spec]
    omega

/-- Python repr(value): raises exactly when an embedded object repr
raises. -/
def pyRepr : PyV → Except Unit String
  | PyV.vnone => Except.ok "None"
  | PyV.vstr s => Except.ok (reprString s)
  | PyV.vdict es =>
      (sequenceE (es.attach.map (fun kv =>
        (pyRepr kv.1.2).map
          (fun vs => reprString kv.1.1 ++ ": " ++ vs)))).map
        (fun parts => "\x7b" ++ joinSep ", " parts ++ "\x7d")
  | PyV.vlist items =>
      (sequenceE (items.attach.map (fun it => pyRepr it.1))).map
        (fun parts => "[" ++ joinSep ", " parts ++ "]")
  | PyV.vtuple items =>
      (sequenceE (items.attach.map (fun it => pyRepr it.1))).map tupleParens
  | PyV.vobj _ _ rR => rR
termination_by v => sizeOf v
decreasing_by
  · obtain ⟨⟨k1, v1⟩, hm⟩ := kv
    have h1 := List.sizeOf_lt_of_mem hm
    simp only [Prod.mk.sizeOf_spec] at h1
    simp only [PyV.vdict.sizeOf_spec]
    omega
  · have h1 := List.sizeOf_lt_of_mem it.2
    simp only [PyV.vlist.sizeOf_spec]
    omega
  · have h1 := List.sizeOf_lt_of_mem it.2
    simp only [PyV.vtuple.sizeOf_spec]
    omega

/-- Python str(value): strings pass through, None renders, containers use
their repr-based display, objects use their own str(). -/
def pyStrTop : PyV → Except Unit String
  | PyV.vnone => Except.ok "None"
  | PyV.vstr s => Except.ok s
  | PyV.vobj _ sR _ => sR
  | v => pyRepr v

/-- The list/tuple branch after the recursive calls: keep non-empty string
parts, return empty when none remain, else join with the density-dependent
separator (empty separator when the average part length is below 3 and
there are more than 20 parts, else a blank line). -/
def joinParts (results : List (Except Unit String)) : Except Unit String :=
  match sequenceE results with
  | Except.error e => Except.error e
  | Except.ok flattened =>
      if (flattened.filter (fun s => s ≠ "")).isEmpty then Except.ok ""
      else
        Except.ok (joinSep
          (if

              ((((flattened.filter (fun s => s ≠ "")).map
                  (fun s => s.length)).sum : ℕ) : ℚ) /
                ((max 1 (flattened.filter (fun s => s ≠ "")).length : ℕ) : ℚ)
                < 3 ∧
              (flattened.filter (fun s => s ≠ "")).length > 20
            then "" else "\n\n")
          (flattened.filter (fun s => s ≠ "")))

/-- as_text of src/src/ui/helpers.py over the Python value model. -/
def as_text : PyV → Except Unit String
  | PyV.vnone => Except.ok ""
  | PyV.vstr s => Except.ok s
  | PyV.vdict es =>
      match h : dictTarget es with
      | some v => as_text v
      | none =>
          match dumps (PyV.vdict es) with
          | some s => Except.ok s
          | none => pyStrTop (PyV.vdict es)
  | PyV.vlist items => joinParts (items.attach.map (fun it => as_text it.1))
  | PyV.vtuple items => joinParts (items.attach.map (fun it => as_text it.1))
  | PyV.vobj attrs sR rR =>
      match h : firstAttrVal attrs with
      | some v => as_text v
      | none => sR
termination_by v => sizeOf v
decreasing_by
  · have h1 := dictTarget_sizeOf es v h
    simp only [PyV.vdict.sizeOf_spec]
    omega
  · have h1 := List.sizeOf_lt_of_mem it.2
    simp only [PyV.vlist.sizeOf_spec]
    omega
  · have h1 := List.sizeOf_lt_of_mem it.2
    simp only [PyV.vtuple.sizeOf_spec]
    omega
  · rename_i attrs2 sR2 rR2
    have h1 := firstAttrVal_sizeOf attrs2 v h
    simp only [PyV.vobj.sizeOf_spec]
    omega

/-- The attribute values an object exposes through a successful getattr. -/
def attrValues (attrs : List (String × Except Unit PyV)) : List PyV :=
  attrs.filterMap (fun kv =>
    match kv.2 with
    | Except.ok v => some v
    | Except.error _ => none)

theorem attrValues_sizeOf (attrs : List (String × Except Unit PyV))
    (v : PyV) (h : v ∈ attrValues attrs) : sizeOf v < sizeOf attrs := by
  unfold attrValues at h
  rw [List.mem_filterMap] at h
  obtain ⟨kv, hkv, hmatch⟩ := h
  have h1 := List.sizeOf_lt_of_mem hkv
  rcases kv with ⟨k1, e1⟩
  rcases e1 with e1 | w
  · cases hmatch
  · simp only at hmatch
    injection hmatch with h2
    subst h2
    simp only [Prod.mk.sizeOf_spec, Except.ok.sizeOf_spec] at h1
    omega

/-- Every embedded opaque object has a non-raising str() and repr(): the
condition under which as_text is total. -/
def safeAll : PyV → Bool
  | PyV.vnone => true
  | PyV.vstr _ => true
  | PyV.vdict es => es.attach.all (fun kv => safeAll kv.1.2)
  | PyV.vlist items => items.attach.all (fun it => safeAll it.1)
  | PyV.vtuple items => items.attach.all (fun it => safeAll it.1)
  | PyV.vobj attrs sR rR =>
      sR.isOk && rR.isOk &&
        (attrValues attrs).attach.all (fun v => safeAll v.1)
termination_by v => sizeOf v
decreasing_by
  · obtain ⟨⟨k1, v1⟩, hm⟩ := kv
    have h1 := List.sizeOf_lt_of_mem hm
    simp only [Prod.mk.sizeOf_spec] at h1
    simp only [PyV.vdict.sizeOf_spec]
    omega
  · have h1 := List.sizeOf_lt_of_mem it.2
    simp only [PyV.vlist.sizeOf_spec]
    omega
  · have h1 := List.sizeOf_lt_of_mem it.2
    simp only [PyV.vtuple.sizeOf_spec]
    omega
  · rename_i attrs2 sR2 rR2
    have h1 := attrValues_sizeOf attrs2 v.1 v.2
    simp only [PyV.vobj.sizeOf_spec]
    omega

theorem sizeOf_dict_entry (es : List (String × PyV)) (kv : String × PyV)
    (h : kv ∈ es) : sizeOf kv.2 < sizeOf (PyV.vdict es) := by
  have h1 := List.sizeOf_lt_of_mem h
  rcases kv with ⟨k1, v1⟩
  simp only [Prod.mk.sizeOf_spec] at h1
  simp only [PyV.vdict.sizeOf_spec]
  show sizeOf v1 < _
  omega

theorem sizeOf_list_item (items : List PyV) (v : PyV) (h : v ∈ items) :
    sizeOf v < sizeOf (PyV.vlist items) := by
  have h1 := List.sizeOf_lt_of_mem h
  simp only [PyV.vlist.sizeOf_spec]
  omega

theorem sizeOf_tuple_item (items : List PyV) (v : PyV) (h : v ∈ items) :
    sizeOf v < sizeOf (PyV.vtuple items) := by
  have h1 := List.sizeOf_lt_of_mem h
  simp only [PyV.vtuple.sizeOf_spec]
  omega

theorem sizeOf_attr_val (attrs : List (String × Except Unit PyV))
    (sR rR : Except Unit String) (v : PyV) (h : v ∈ attrValues attrs) :
    sizeOf v < sizeOf (PyV.vobj attrs sR rR) := by
  have h1 := attrValues_sizeOf attrs v h
  simp only [PyV.vobj.sizeOf_spec]
  omega

theorem safe_dict_mem (es : List (String × PyV))
    (h : safeAll (PyV.vdict es) = true) (kv : String × PyV) (hkv : kv ∈ es) :
    safeAll kv.2 = true := by
  simp only [safeAll] at h
  have h2 := List.all_eq_true.mp h ⟨kv, hkv⟩ (List.mem_attach es ⟨kv, hkv⟩)
  simpa using h2

theorem safe_list_mem (items : List PyV)
    (h : safeAll (PyV.vlist items) = true) (v : PyV) (hv : v ∈ items) :
    safeAll v = true := by
  simp only [safeAll] at h
  have h2 := List.all_eq_true.mp h ⟨v, hv⟩ (List.mem_attach items ⟨v, hv⟩)
  simpa using h2

theorem safe_tuple_mem (items : List PyV)
    (h : safeAll (PyV.vtuple items) = true) (v : PyV) (hv : v ∈ items) :
    safeAll v = true := by
  simp only [safeAll] at h
  have h2 := List.all_eq_true.mp h ⟨v, hv⟩ (List.mem_attach items ⟨v, hv⟩)
  simpa using h2

theorem safe_obj (attrs : List (String × Except Unit PyV))
    (sR rR : Except Unit String) (h : safeAll (PyV.vobj attrs sR rR) = true) :
    sR.isOk = true ∧ rR.isOk = true ∧
      ∀ v ∈ attrValues attrs, safeAll v = true := by
  simp only [safeAll] at h
  rw [Bool.and_eq_true, Bool.and_eq_true] at h
  refine ⟨h.1.1, h.1.2, fun v hv => ?_⟩
  have h2 := List.all_eq_true.mp h.2 ⟨v, hv⟩ (List.mem_attach _ ⟨v, hv⟩)
  simpa using h2

theorem mem_attrValues (attrs : List (String × Except Unit PyV))
    (kv : String × Except Unit PyV) (hkv : kv ∈ attrs) (v : PyV)
    (h : kv.2 = Except.ok v) : v ∈ attrValues attrs := by
  unfold attrValues
  rw [List.mem_filterMap]
  exact ⟨kv, hkv, by rw [h]⟩

theorem exceptIsOk_exists {α : Type} (e : Except Unit α)
    (h : e.isOk = true) : ∃ a, e = Except.ok a := by
  rcases e with e | a
  · cases h
  · exact ⟨a, rfl⟩

theorem sequenceE_ok {α : Type} (xs : List (Except Unit α))
    (h : ∀ x ∈ xs, ∃ a, x = Except.ok a) :
    ∃ l, sequenceE xs = Except.ok l := by
  induction xs with
  | nil => exact ⟨[], rfl⟩
  | cons x rest ih =>
      obtain ⟨a, ha⟩ := h x (List.mem_cons_self x rest)
      obtain ⟨l, hl⟩ := ih (fun y hy => h y (List.mem_cons_of_mem x hy))
      subst ha
      exact ⟨a :: l, by simp [sequenceE, hl]⟩

theorem joinParts_ok (results : List (Except Unit String))
    (h : ∀ x ∈ results, ∃ s, x = Except.ok s) :
    ∃ s, joinParts results = Except.ok s := by
  obtain ⟨l, hl⟩ := sequenceE_ok results h
  simp only [joinParts, hl]
  by_cases hp : ((l.filter (fun s => s ≠ "")).isEmpty) = true
  · rw [if_pos hp]
    exact ⟨"", rfl⟩
  · rw [if_neg hp]
    exact ⟨_, rfl⟩

theorem as_text_dict_some (es : List (String × PyV)) (v : PyV)
    (h : dictTarget es = some v) :
    as_text (PyV.vdict es) = as_text v := by
  rw [as_text]
  split
  · rename_i v2 h2
    rw [h] at h2
    injection h2 with h3
    rw [h3]
  · rename_i h2
    rw [h] at h2
    cases h2

theorem as_text_dict_none (es : List (String × PyV))
    (h : dictTarget es = none) :
    as_text (PyV.vdict es) =
      match dumps (PyV.vdict es) with
      | some s => Except.ok s
      | none => pyStrTop (PyV.vdict es) := by
  rw [as_text]
  split
  · rename_i v2 h2
    rw [h] at h2
    cases h2
  · rfl

theorem as_text_obj_some (attrs : List (String × Except Unit PyV))
    (sR rR : Except Unit String) (v : PyV) (h : firstAttrVal attrs = some v) :
    as_text (PyV.vobj attrs sR rR) = as_text v := by
  rw [as_text]
  split
  · rename_i v2 h2
    rw [h] at h2
    injection h2 with h3
    rw [h3]
  · rename_i h2
    rw [h] at h2
    cases h2

theorem as_text_obj_none (attrs : List (String × Except Unit PyV))
    (sR rR : Except Unit String) (h : firstAttrVal attrs = none) :
    as_text (PyV.vobj attrs sR rR) = sR := by
  rw [as_text]
  split
  · rename_i v2 h2
    rw [h] at h2
    cases h2
  · rfl

theorem pyRepr_ok_aux : ∀ (n : Nat) (v : PyV), sizeOf v ≤ n →
    safeAll v = true → ∃ s, pyRepr v = Except.ok s := by
  intro n
  induction n using Nat.strong_induction_on with
  | _ n ih =>
    intro v hsize hsafe
    cases v with
    | vnone => exact ⟨"None", by rw [pyRepr]⟩
    | vstr s => exact ⟨reprString s, by rw [pyRepr]⟩
    | vdict es =>
        have hparts : ∀ x ∈ es.attach.map (fun kv =>
            (pyRepr kv.1.2).map
              (fun vs => reprString kv.1.1 ++ ": " ++ vs)),
            ∃ a, x = Except.ok a := by
          intro x hx
          rw [List.mem_map] at hx
          obtain ⟨kv, _, rfl⟩ := hx
          have hsz := sizeOf_dict_entry es kv.1 kv.2
          obtain ⟨s2, hs2⟩ := ih (sizeOf kv.1.2)
            (Nat.lt_of_lt_of_le hsz hsize) kv.1.2 (Nat.le_refl _)
            (safe_dict_mem es hsafe kv.1 kv.2)
          exact ⟨reprString kv.1.1 ++ ": " ++ s2, by rw [hs2]; rfl⟩
        obtain ⟨l, hl⟩ := sequenceE_ok _ hparts
        rw [pyRepr, hl]
        exact ⟨_, rfl⟩
    | vlist items =>
        have hparts : ∀ x ∈ items.attach.map (fun it => pyRepr it.1),
            ∃ a, x = Except.ok a := by
          intro x hx
          rw [List.mem_map] at hx
          obtain ⟨it, _, rfl⟩ := hx
          have hsz := sizeOf_list_item items it.1 it.2
          exact ih (sizeOf it.1) (Nat.lt_of_lt_of_le hsz hsize) it.1
            (Nat.le_refl _) (safe_list_mem items hsafe it.1 it.2)
        obtain ⟨l, hl⟩ := sequenceE_ok _ hparts
        rw [pyRepr, hl]
        exact ⟨_, rfl⟩
    | vtuple items =>
        have hparts : ∀ x ∈ items.attach.map (fun it => pyRepr it.1),
            ∃ a, x = Except.ok a := by
          intro x hx
          rw [List.mem_map] at hx
          obtain ⟨it, _, rfl⟩ := hx
          have hsz := sizeOf_tuple_item items it.1 it.2
          exact ih (sizeOf it.1) (Nat.lt_of_lt_of_le hsz hsize) it.1
            (Nat.le_refl _) (safe_tuple_mem items hsafe it.1 it.2)
        obtain ⟨l, hl⟩ := sequenceE_ok _ hparts
        rw [pyRepr, hl]
        exact ⟨_, rfl⟩
    | vobj attrs sR rR =>
        obtain ⟨a, ha⟩ := exceptIsOk_exists rR (safe_obj attrs sR rR hsafe).2.1
        exact ⟨a, by rw [pyRepr]; exact ha⟩

theorem pyStrTop_ok (v : PyV) (hsafe : safeAll v = true) :
    ∃ s, pyStrTop v = Except.ok s := by
  cases v with
  | vnone => exact ⟨"None", rfl⟩
  | vstr s => exact ⟨s, rfl⟩
  | vdict es =>
      exact pyRepr_ok_aux (sizeOf (PyV.vdict es)) (PyV.vdict es)
        (Nat.le_refl _) hsafe
  | vlist items =>
      exact pyRepr_ok_aux (sizeOf (PyV.vlist items)) (PyV.vlist items)
        (Nat.le_refl _) hsafe
  | vtuple items =>
      exact pyRepr_ok_aux (sizeOf (PyV.vtuple items)) (PyV.vtuple items)
        (Nat.le_refl _) hsafe
  | vobj attrs sR rR =>
      exact exceptIsOk_exists sR (safe_obj attrs sR rR hsafe).1

theorem as_text_ok_aux : ∀ (n : Nat) (v : PyV), sizeOf v ≤ n →
    safeAll v = true → ∃ s, as_text v = Except.ok s := by
  intro n
  induction n using Nat.strong_induction_on with
  | _ n ih =>
    intro v hsize hsafe
    cases v with
    | vnone => exact ⟨"", by rw [as_text]⟩
    | vstr s => exact ⟨s, by rw [as_text]⟩
    | vdict es =>
        rcases h2 : dictTarget es with _ | v2
        · rw [as_text_dict_none es h2]
          rcases hd : dumps (PyV.vdict es) with _ | s
          · exact pyStrTop_ok (PyV.vdict es) hsafe
          · exact ⟨s, rfl⟩
        · rw [as_text_dict_some es v2 h2]
          obtain ⟨kv, hkv, hv⟩ := dictTarget_mem es v2 h2
          have hsafe2 : safeAll v2 = true := by
            rw [← hv]
            exact safe_dict_mem es hsafe kv hkv
          have hsz : sizeOf v2 < sizeOf (PyV.vdict es) := by
            have h3 := dictTarget_sizeOf es v2 h2
            simp only [PyV.vdict.sizeOf_spec]
            omega
          exact ih (sizeOf v2) (Nat.lt_of_lt_of_le hsz hsize) v2
            (Nat.le_refl _) hsafe2
    | vlist items =>
        rw [as_text]
        apply joinParts_ok
        intro x hx
        rw [List.mem_map] at hx
        obtain ⟨it, _, rfl⟩ := hx
        have hsz := sizeOf_list_item items it.1 it.2
        exact ih (sizeOf it.1) (Nat.lt_of_lt_of_le hsz hsize) it.1
          (Nat.le_refl _) (safe_list_mem items hsafe it.1 it.2)
    | vtuple items =>
        rw [as_text]
        apply joinParts_ok
        intro x hx
        rw [List.mem_map] at hx
        obtain ⟨it, _, rfl⟩ := hx
        have hsz := sizeOf_tuple_item items it.1 it.2
        exact ih (sizeOf it.1) (Nat.lt_of_lt_of_le hsz hsize) it.1
          (Nat.le_refl _) (safe_tuple_mem items hsafe it.1 it.2)
    | vobj attrs sR rR =>
        rcases h2 : firstAttrVal attrs with _ | v2
        · rw [as_text_obj_none attrs sR rR h2]
          exact exceptIsOk_exists sR (safe_obj attrs sR rR hsafe).1
        · rw [as_text_obj_some attrs sR rR v2 h2]
          obtain ⟨kv, hkv, hv⟩ := firstAttrVal_ok attrs v2 h2
          have hsafe2 := (safe_obj attrs sR rR hsafe).2.2 v2
            (mem_attrValues attrs kv hkv v2 hv)
          have hsz : sizeOf v2 < sizeOf (PyV.vobj attrs sR rR) := by
            have h3 := firstAttrVal_sizeOf attrs v2 h2
            simp only [PyV.vobj.sizeOf_spec]
            omega
          exact ih (sizeOf v2) (Nat.lt_of_lt_of_le hsz hsize) v2
            (Nat.le_refl _) hsafe2

/-- C5 (counterexample): the claim says as_text never raises for any
object, but the final fallback return str(obj) is not guarded: an object
with no usable text attributes whose str() raises makes as_text raise. -/
theorem C5_counterexample :
    as_text (PyV.vobj [] (Except.error ()) (Except.error ())) =
      Except.error () := by
  rw [as_text_obj_none]
  rfl

/-- C5 (amended): as_text is total and returns a string on every value all
of whose embedded opaque objects have non-raising str() and repr(); an
object whose generic string conversion raises propagates the exception
(see the counterexample). -/
theorem C5_as_text_total (v : PyV) (h : safeAll v = true) :
    ∃ s, as_text v = Except.ok s :=
  as_text_ok_aux (sizeOf v) v (Nat.le_refl _) h

/-- C5 witness: an attribute-free object with a non-raising str() is
normalized without raising. -/
theorem C5_as_text_total_witness :
    ∃ s, as_text (PyV.vobj [] (Except.ok "obj-text") (Except.ok "r")) =
      Except.ok s :=
  C5_as_text_total (PyV.vobj [] (Except.ok "obj-text") (Except.ok "r"))
    (by simp [safeAll, attrValues, Except.isOk, Except.toBool])

/-! ## The conversation turn of run_app (src/src/app.py lines 24-50 and
109-179)

    st.session_state.messages.append(dict role user, content prompt)
    with st.chat_message("assistant"):
        try:
            response = _handle_prompt(prompt=prompt, settings=settings)
        except Exception as exc:
            message = f"Error: (exc)"
            response = dict role assistant, content message
    st.session_state.messages.append(response)

_handle_prompt invokes the agent, normalizes its output (sql_text_full),
extracts the SQL, runs the Athena query, builds records and the optional
chart, computes the token cost, and returns the assistant message dict.
The two remote calls are abstracted as inputs: sqlTextFull is the
normalized agent output and runQ is the query client (raising modelled as
Except.error carrying str(exc)).  The built instruction text (a template
around static schema constants) is passed in as instruction; only its
token estimate is used.  Rendering calls (st.*) do not affect the
appended message.  The llm_cost dict is reduced to its token counts (the
two derived dollar floats are display-only). -/

/-- estimate_tokens of src/src/ui/helpers.py: 0 for falsy text, else
max(1, len(text) div 4). -/
def estimate_tokens (text : String) : Nat :=
  if text = "" then 0 else max 1 (text.length / 4)

/-- Literal occurrence of pat at position i of s. -/
def litAt (pat s : List Char) (i : Nat) : Bool :=
  decide (i + pat.length ≤ s.length) &&
    (((s.drop i).take pat.length).zip pat).all (fun p => p.1 = p.2)

/-- Python substring test sub in s. -/
def containsSub (sub s : List Char) : Bool :=
  (List.range (s.length + 1)).any (fun i => litAt sub s i)

/-- The chart-intent keyword list of _wants_chart. -/
def chartKeywords : List String :=
  ["chart", "plot", "graph", "visualize", "visualisation", "visualization",
   "bar", "line", "scatter", "histogram"]

/-- _wants_chart of src/src/app.py: any keyword occurs in the lowercased
prompt. -/
def wants_chart (prompt : String) : Bool :=
  chartKeywords.any (fun w => containsSub w.data (pyLower prompt).data)

/-- One chat message as stored in the session history (optional artifact
fields absent by default, mirroring missing dict keys). -/
structure ChatMessage where
  role : String
  content : String
  sql : Option String := none
  table : Option (List String × List (List String)) := none
  table_records : Option (List (List (String × Option String))) := none
  vega_spec : Option ChartSpec := none
  llm_cost : Option (Nat × Nat) := none

/-- _handle_prompt of src/src/app.py: extract the SQL (empty extraction is
a RuntimeError), run the query (any raise propagates), build records,
optionally a chart, the cost estimate, and the assistant message. -/
def handle_prompt (prompt instruction sqlTextFull : String)
    (runQ : String → Except String (List String × List (List String))) :
    Except String ChatMessage :=
  let sql_to_run := String.mk (extract_sql sqlTextFull.data)
  if sql_to_run = "" then
    Except.error "Failed to extract SQL from the model output."
  else
    match runQ sql_to_run with
    | Except.error e => Except.error e
    | Except.ok (columns, rows) =>
        let records := records_from_table columns rows
        let chart_spec :=
          if wants_chart prompt && !records.isEmpty then build_chart records
          else none
        Except.ok
          { role := "assistant"
            content := "Results shown above.\n\n```sql\n" ++ sql_to_run ++
              "\n```"
            sql := some sql_to_run
            table := some (columns, rows)
            table_records := some records
            vega_spec := chart_spec
            llm_cost := some (estimate_tokens instruction,
              estimate_tokens sqlTextFull) }

/-- The assistant message a turn produces: the _handle_prompt result, or
the bare Error message when anything raised. -/
def turn_message (prompt instruction sqlTextFull : String)
    (runQ : String → Except String (List String × List (List String))) :
    ChatMessage :=
  match handle_prompt prompt instruction sqlTextFull runQ with
  | Except.ok m => m
  | Except.error e => { role := "assistant", content := "Error: " ++ e }

/-- One full turn of run_app over the session history: the user message is
appended first, then exactly one assistant message. -/
def step_history (history : List ChatMessage)
    (prompt instruction sqlTextFull : String)
    (runQ : String → Except String (List String × List (List String))) :
    List ChatMessage :=
  (history ++ [{ role := "user", content := prompt }]) ++
    [turn_message prompt instruction sqlTextFull runQ]

/-- C6: whenever the query client call raises, the turn appends exactly
one assistant message, whose content is Error: followed by the error
message, and which carries no sql, no table, no table_records, no chart
spec and no cost. -/
theorem C6_error_turn (history : List ChatMessage)
    (prompt instruction sqlTextFull : String)
    (runQ : String → Except String (List String × List (List String)))
    (e : String)
    (hext : String.mk (extract_sql sqlTextFull.data) ≠ "")
    (hrun : runQ (String.mk (extract_sql sqlTextFull.data)) =
      Except.error e) :
    turn_message prompt instruction sqlTextFull runQ =
      { role := "assistant", content := "Error: " ++ e, sql := none,
        table := none, table_records := none, vega_spec := none,
        llm_cost := none } ∧
    step_history history prompt instruction sqlTextFull runQ =
      (history ++ [{ role := "user", content := prompt }]) ++
        [{ role := "assistant", content := "Error: " ++ e }] := by
  have hmsg : turn_message prompt instruction sqlTextFull runQ =
      { role := "assistant", content := "Error: " ++ e } := by
    simp only [turn_message, handle_prompt]
    rw [if_neg hext, hrun]
  exact ⟨hmsg, by rw [step_history, hmsg]⟩

/-- C6 witness: a concrete failing query turn produces exactly the bare
error message. -/
theorem C6_error_turn_witness :
    turn_message "plot sales" "instr" "```sql\nselect 1\n```"
      (fun _ => Except.error "AccessDenied") =
      { role := "assistant", content := "Error: " ++ "AccessDenied",
        sql := none, table := none, table_records := none,
        vega_spec := none, llm_cost := none } :=
  (C6_error_turn [] "plot sales" "instr" "```sql\nselect 1\n```"
    (fun _ => Except.error "AccessDenied") "AccessDenied"
    (by decide) rfl).1

end InsightPilot










